import Mathlib

/-!
The `pages`, `schema` and `generate` commands of pqx.

A shallow embedding of `cmd/pages.go`, `cmd/schema.go` and `cmd/generate.go`.
Each command function becomes a pure function of its flags and of what the
parquet library and the file system answer; its result is the list of
observable steps it takes together with how it ends.
-/

namespace Pqx

/-! ## Go runtime vocabulary shared by the commands -/

/-- A Go `error` value: the sentinel `io.EOF`, an error of some other origin with
its message, or the result of `fmt.Errorf(text + "%w", cause)`. -/
inductive GoError where
  | eof
  | other (message : String)
  | wrap (text : String) (cause : GoError)
  deriving DecidableEq, Repr

/-- The `Error()` text of an error. -/
def GoError.Error : GoError → String
  | .eof => "EOF"
  | .other message => message
  | .wrap text cause => text ++ cause.Error

/-- How a command function ends: `return nil`, `return err`, or a run-time panic. -/
inductive Outcome where
  | nil
  | error (err : GoError)
  | panic (message : String)
  deriving DecidableEq, Repr

/-- The package-level `min` (generate.go:132-137), also used by pages.go. -/
def min (a b : Int) : Int :=
  if a < b then a else b

/-- Go slice indexing `s[i]` with its bounds check: `none` stands for the
run-time panic "index out of range". -/
def sliceIndex {α : Type} (s : List α) (i : Int) : Option α :=
  if i < 0 then none else s[i.toNat]?

/-! ## cmd/pages.go -/

/-- A `parquet.Value` as the command prints it: its `%v` text and its levels. -/
structure Value where
  text : String
  repetitionLevel : Int
  definitionLevel : Int
  deriving DecidableEq, Repr

/-- A `parquet.Page` as the command observes it. `NumValues()` is a count, hence
a natural number. `sample` and `valuesErr` script the value reader returned by
`Values()`: `ReadValues(buf)` stores the first `len(buf)` entries of `sample`
into `buf`, returns how many it stored, and returns `valuesErr`. -/
structure Page where
  numValues : Nat
  numRows : Int
  numNulls : Int
  size : Int
  column : Int
  bounds : Option (String × String)
  dictionaryLen : Option Int
  sample : List Value
  valuesErr : Option GoError
  deriving DecidableEq, Repr

/-- One scripted answer of `pages.ReadPage()`: a page with a nil error, or a nil
page with an error (possibly `io.EOF`). -/
inductive ReadResult where
  | page (p : Page)
  | fail (err : GoError)
  deriving DecidableEq, Repr

/-- A `parquet.ColumnChunk`: `Type()`, `NumValues()`, and the answers its page
reader gives to successive `ReadPage` calls; once the script is used up the
reader answers `io.EOF`. -/
structure ColumnChunk where
  typeName : String
  numValues : Int
  pages : List ReadResult
  deriving DecidableEq, Repr

structure RowGroup where
  columnChunks : List ColumnChunk
  deriving DecidableEq, Repr

structure ParquetFile where
  rowGroups : List RowGroup
  deriving DecidableEq, Repr

/-- What `os.Open`, `file.Stat` and `parquet.OpenFile` give for a file name. -/
inductive OpenResult where
  | openFailed (err : GoError)
  | statFailed (err : GoError)
  | parquetFailed (err : GoError)
  | opened (file : ParquetFile)
  deriving DecidableEq, Repr

/-- Observable steps of `explorePages`: each `Printf`/`Println` call, and each
call into the page and value readers together with what it returned. -/
inductive Event where
  | analysisHeader (filename : String)
  | analyzingColumn (columnIndex : Int)
  | rowGroupHeader (rgIdx : Nat)
  | indexChunk (columnIndex : Int)
  | columnType (typeName : String)
  | totalValues (n : Int)
  | readPage (err : Option GoError)
  | pageHeader (pageNum : Int)
  | pageValues (n : Nat)
  | pageRows (n : Int)
  | pageNulls (n : Int)
  | pageSize (n : Int)
  | pageColumn (n : Int)
  | minValue (text : String)
  | maxValue (text : String)
  | boundsNotAvailable
  | dictionaryEntries (n : Int)
  | dictionaryNone
  | readValues (bufLen : Nat) (n : Nat) (err : Option GoError)
  | sampleHeader (n : Nat)
  | sampleValue (i : Nat) (v : Value)
  | onlyFirst (maxPages : Int)
  | blankLine
  deriving DecidableEq, Repr

/-- Text written to standard output by a step (nothing for reader calls). -/
def Event.render : Event → String
  | .analysisHeader filename => "=== Page Analysis: " ++ filename ++ " ===\n"
  | .analyzingColumn columnIndex => "Analyzing column " ++ toString columnIndex ++ "\n\n"
  | .rowGroupHeader rgIdx => "=== RowGroup " ++ toString rgIdx ++ " ===\n"
  | .indexChunk _ => ""
  | .columnType typeName => "Column Type: " ++ typeName ++ "\n"
  | .totalValues n => "Total Values: " ++ toString n ++ "\n"
  | .readPage _ => ""
  | .pageHeader pageNum => "\n  Page " ++ toString pageNum ++ ":\n"
  | .pageValues n => "    Values: " ++ toString n ++ "\n"
  | .pageRows n => "    Rows: " ++ toString n ++ "\n"
  | .pageNulls n => "    Nulls: " ++ toString n ++ "\n"
  | .pageSize n => "    Size: " ++ toString n ++ " bytes\n"
  | .pageColumn n => "    Column: " ++ toString n ++ "\n"
  | .minValue text => "    Min Value: " ++ text ++ "\n"
  | .maxValue text => "    Max Value: " ++ text ++ "\n"
  | .boundsNotAvailable => "    Bounds: Not available\n"
  | .dictionaryEntries n => "    Dictionary: " ++ toString n ++ " entries\n"
  | .dictionaryNone => "    Dictionary: None\n"
  | .readValues _ _ _ => ""
  | .sampleHeader n => "    Sample Values (" ++ toString n ++ " shown):\n"
  | .sampleValue i v =>
    "      [" ++ toString i ++ "] " ++ v.text ++ " (R:" ++ toString v.repetitionLevel
      ++ " D:" ++ toString v.definitionLevel ++ ")\n"
  | .onlyFirst maxPages => "\n  ... (showing only first " ++ toString maxPages ++ " pages)\n"
  | .blankLine => "\n"

/-- The prints of pages.go:82-102 for one page. -/
def pageDescription (pageNum : Int) (page : Page) : List Event :=
  [.pageHeader pageNum, .pageValues page.numValues, .pageRows page.numRows,
   .pageNulls page.numNulls, .pageSize page.size, .pageColumn page.column]
  ++ (match page.bounds with
      | some (lo, hi) => [.minValue lo, .maxValue hi]
      | none => [.boundsNotAvailable])
  ++ (match page.dictionaryLen with
      | some n => [.dictionaryEntries n]
      | none => [.dictionaryNone])

/-- The sample prints of pages.go:112-120 for the `n = values.length` values read. -/
def sampleLines (values : List Value) : List Event :=
  if values.length > 0 then
    .sampleHeader values.length ::
      (List.range values.length).zipWith (fun i v => Event.sampleValue i v) values
  else []

/-- How the page loop of one row group ends: it falls out of the loop with the
final `pageNum`, or the enclosing function returns an error. -/
inductive LoopExit where
  | done (pageNum : Int)
  | ret (err : GoError)
  deriving DecidableEq, Repr

/-- The loop `for pageNum < maxPages { ... }` (pages.go:73-123), started with the
given `pageNum` on a reader whose remaining answers are the given script. -/
def pageLoop (maxPages : Int) : Int → List ReadResult → List Event × LoopExit
  | pageNum, [] =>
    if pageNum < maxPages then ([.readPage (some .eof)], .done pageNum)
    else ([], .done pageNum)
  | pageNum, .fail err :: _ =>
    if pageNum < maxPages then
      if err = .eof then ([.readPage (some err)], .done pageNum)
      else ([.readPage (some err)], .ret (.wrap "failed to read page: " err))
    else ([], .done pageNum)
  | pageNum, .page page :: rest =>
    if pageNum < maxPages then
      let bufLen := (min 10 (page.numValues : Int)).toNat
      let values := page.sample.take bufLen
      let n := values.length
      let shown : List Event :=
        .readPage none :: pageDescription pageNum page ++ [.readValues bufLen n page.valuesErr]
      let (later, exit) := pageLoop maxPages (pageNum + 1) rest
      match page.valuesErr with
      | some err =>
        if err = .eof then (shown ++ sampleLines values ++ later, exit)
        else (shown, .ret (.wrap "failed to read values: " err))
      | none => (shown ++ sampleLines values ++ later, exit)
    else ([], .done pageNum)

/-- How the body of the row-group loop ends. -/
inductive BodyExit where
  | next
  | ret (err : GoError)
  | panic (message : String)
  deriving DecidableEq, Repr

/-- Body of `for rgIdx, rowGroup := range pqFile.RowGroups()` (pages.go:57-128). -/
def rowGroupBody (columnIndex maxPages : Int) (rgIdx : Nat) (rowGroup : RowGroup) :
    List Event × BodyExit :=
  let chunks := rowGroup.columnChunks
  if columnIndex ≥ (chunks.length : Int) then
    ([.rowGroupHeader rgIdx],
     .ret (.other ("column index " ++ toString columnIndex ++ " out of range (max: "
        ++ toString ((chunks.length : Int) - 1) ++ ")")))
  else
    match sliceIndex chunks columnIndex with
    | none =>
      ([.rowGroupHeader rgIdx, .indexChunk columnIndex],
       .panic ("runtime error: index out of range [" ++ toString columnIndex ++ "]"))
    | some chunk =>
      let opening : List Event :=
        [.rowGroupHeader rgIdx, .indexChunk columnIndex, .columnType chunk.typeName,
         .totalValues chunk.numValues]
      match pageLoop maxPages 0 chunk.pages with
      | (shown, .ret err) => (opening ++ shown, .ret err)
      | (shown, .done pageNum) =>
        (opening ++ shown
          ++ (if pageNum = maxPages then [.onlyFirst maxPages] else []) ++ [.blankLine],
         .next)

/-- The loop over the row groups (pages.go:56-129) followed by `return nil`. -/
def rowGroupsLoop (columnIndex maxPages : Int) : Nat → List RowGroup → List Event × Outcome
  | _, [] => ([], .nil)
  | rgIdx, rowGroup :: rest =>
    match rowGroupBody columnIndex maxPages rgIdx rowGroup with
    | (shown, .ret err) => (shown, .error err)
    | (shown, .panic message) => (shown, .panic message)
    | (shown, .next) =>
      let (later, outcome) := rowGroupsLoop columnIndex maxPages (rgIdx + 1) rest
      (shown ++ later, outcome)

/-- `explorePages` (pages.go:32-132) with the flags `--column` and `--max-pages`
and the state of the file system as explicit arguments. The deferred `Close`
calls print nothing and are left out. -/
def explorePages (columnIndex maxPages : Int) (filename : String) (fs : OpenResult) :
    List Event × Outcome :=
  match fs with
  | .openFailed err => ([], .error (.wrap "failed to open file: " err))
  | .statFailed err => ([], .error (.wrap "failed to stat file: " err))
  | .parquetFailed err => ([], .error (.wrap "failed to open parquet file: " err))
  | .opened file =>
    let (shown, outcome) := rowGroupsLoop columnIndex maxPages 0 file.rowGroups
    (.analysisHeader filename :: .analyzingColumn columnIndex :: shown, outcome)

/-! ### Vocabulary for statements about a run of `explorePages` -/

/-- Page numbers of the pages shown in a run, in the order shown. -/
def shownPages (events : List Event) : List Int :=
  events.filterMap (fun e => match e with
    | .pageHeader pageNum => some pageNum
    | _ => none)

/-- For a reader call that returned an error other than `io.EOF`: the error
`explorePages` is expected to return for it. -/
def failureOf : Event → Option GoError
  | .readPage (some err) =>
    if err = .eof then none else some (.wrap "failed to read page: " err)
  | .readValues _ _ (some err) =>
    if err = .eof then none else some (.wrap "failed to read values: " err)
  | _ => none

/-! ### Sample inputs for cmd/pages.go -/

/-- A data page of three values whose value reader succeeds. -/
def page1 : Page :=
  ⟨3, 3, 0, 24, 0, some ("1", "3"), none, [⟨"1", 0, 0⟩, ⟨"2", 0, 0⟩, ⟨"3", 0, 0⟩], none⟩

/-- A data page whose value reader fails with a decoding error. -/
def pageBadValues : Page :=
  ⟨3, 3, 0, 24, 0, none, some 2, [⟨"1", 0, 0⟩], some (.other "corrupt values")⟩

/-- A chunk of two readable pages. -/
def chunk1 : ColumnChunk := ⟨"INT64", 6, [.page page1, .page page1]⟩

/-- A chunk whose reader reports end of sequence at once; the scripted answer
after it is never requested. -/
def chunkEmpty : ColumnChunk := ⟨"INT64", 0, [.fail .eof, .fail (.other "never read")]⟩

/-- A chunk whose first page cannot be read. -/
def chunkBadPage : ColumnChunk := ⟨"INT64", 6, [.fail (.other "corrupt page"), .page page1]⟩

/-- A chunk whose first page is readable but whose values are not. -/
def chunkBadValues : ColumnChunk := ⟨"INT64", 6, [.page pageBadValues, .page page1]⟩

/-- Two row groups of one readable chunk each. -/
def file1 : ParquetFile := ⟨[⟨[chunk1]⟩, ⟨[chunk1]⟩]⟩

/-- Two row groups, the first with two chunks and the second with one. -/
def fileRagged : ParquetFile := ⟨[⟨[chunkEmpty, chunkEmpty]⟩, ⟨[chunkEmpty]⟩]⟩

/-- Two row groups of one empty chunk each. -/
def fileEmptyChunks : ParquetFile := ⟨[⟨[chunkEmpty]⟩, ⟨[chunkEmpty]⟩]⟩

/-- A file whose second row group has an unreadable page. -/
def fileBadPage : ParquetFile := ⟨[⟨[chunkEmpty]⟩, ⟨[chunkBadPage]⟩, ⟨[chunk1]⟩]⟩

/-- A file whose first row group has a page with unreadable values. -/
def fileBadValues : ParquetFile := ⟨[⟨[chunkBadValues]⟩, ⟨[chunk1]⟩]⟩

/-! ## cmd/schema.go -/

/-- A schema node as the command observes it through the `parquet.Node`
interface: `Leaf()`, `Type().String()`, `Optional()`, `Repeated()`, the result
of the type assertion `node.(parquet.Field)` (the field's `Name()` when it
succeeds) and `Fields()`. -/
inductive Node where
  | mk (leaf : Bool) (typeString : String) (optional : Bool) (repeated : Bool)
       (fieldName : Option String) (fields : List Node)

namespace Node

def Leaf : Node → Bool
  | mk leaf _ _ _ _ _ => leaf

def TypeString : Node → String
  | mk _ ty _ _ _ _ => ty

def Optional : Node → Bool
  | mk _ _ opt _ _ _ => opt

def Repeated : Node → Bool
  | mk _ _ _ rep _ _ => rep

/-- Outcome of `node.(parquet.Field)`: the field name when the assertion holds. -/
def asField : Node → Option String
  | mk _ _ _ _ nm _ => nm

def Fields : Node → List Node
  | mk _ _ _ _ _ fs => fs

end Node

/-- `formatColumnPath`, loop of schema.go:100-105: `i` is the index of the head
of `path` in the original slice, `result` the accumulator. -/
def formatColumnPathLoop : Nat → String → List String → String
  | _, result, [] => result
  | i, result, part :: rest =>
    let result := if i > 0 then result ++ "." else result
    formatColumnPathLoop (i + 1) (result ++ part) rest

/-- `formatColumnPath` (schema.go:98-107). -/
def formatColumnPath (path : List String) : String :=
  formatColumnPathLoop 0 "" path

/-- The `nodeType` local of `printSchemaNode` (schema.go:116-119). -/
def nodeType (node : Node) : String :=
  if node.Leaf then node.TypeString else "GROUP"

/-- The `repetition` local of `printSchemaNode` (schema.go:121-126). -/
def repetition (node : Node) : String :=
  if node.Optional then "OPTIONAL"
  else if node.Repeated then "REPEATED"
  else "REQUIRED"

/-- The `nodeName` local of `printSchemaNode` (schema.go:129-132). -/
def nodeName (node : Node) : String :=
  match node.asField with
  | some name => name
  | none => "(root)"

mutual
/-- `printSchemaNode` (schema.go:109-142); the result is the list of lines
written to standard output, each without its trailing newline. -/
def printSchemaNode : Node → String → Int → List String
  | .mk leaf ty opt rep nm fs, indent, depth =>
    if depth > 10 then
      [indent ++ "... (max depth reached)"]
    else
      let node := Node.mk leaf ty opt rep nm fs
      (indent ++ repetition node ++ " " ++ nodeType node ++ " " ++ nodeName node) ::
        (if !leaf then printSchemaFields fs indent depth else [])
/-- The `for _, field := range node.Fields()` loop of `printSchemaNode`. -/
def printSchemaFields : List Node → String → Int → List String
  | [], _, _ => []
  | field :: rest, indent, depth =>
    printSchemaNode field (indent ++ "  ") (depth + 1) ++ printSchemaFields rest indent depth
end

/-! ### Specification-side vocabulary for the schema tree -/

/-- The three repetition kinds of the data model. -/
inductive Repetition where
  | REQUIRED
  | OPTIONAL
  | REPEATED
  deriving DecidableEq, Repr

def Repetition.label : Repetition → String
  | .REQUIRED => "REQUIRED"
  | .OPTIONAL => "OPTIONAL"
  | .REPEATED => "REPEATED"

/-- A run of `k` space characters. -/
def spaces (k : Nat) : String :=
  String.mk (List.replicate k ' ')

/-- The text of a node's line after its indentation. -/
def Node.label (node : Node) : String :=
  repetition node ++ " " ++ nodeType node ++ " " ++ nodeName node

mutual
/-- Depth-first pre-order enumeration of the schema tree with depths; the
children of a group are its fields in field order, a leaf has none. -/
def preorder : Nat → Node → List (Nat × Node)
  | d, .mk leaf ty opt rep nm fs =>
    (d, Node.mk leaf ty opt rep nm fs) :: (if leaf then [] else preorderFields (d + 1) fs)
def preorderFields : Nat → List Node → List (Nat × Node)
  | _, [] => []
  | d, f :: rest => preorder d f ++ preorderFields d rest
end

mutual
/-- Number of edges on the longest root-to-node path. -/
def height : Node → Nat
  | .mk leaf _ _ _ _ fs => if leaf then 0 else heightFields fs
def heightFields : List Node → Nat
  | [] => 0
  | f :: rest => max (height f + 1) (heightFields rest)
end

/-- What the specification expects for the tree node `node` met at depth `d`:
its own line up to depth 10, the cut-off marker at depth 11, nothing deeper. -/
def expectedLine (p : Nat × Node) : Option String :=
  if p.1 ≤ 10 then some (spaces (2 * p.1) ++ p.2.label)
  else if p.1 = 11 then some (spaces 22 ++ "... (max depth reached)")
  else none

/-- A chain of `k + 1` nested groups, each the single field (named `level`) of
the one above it. -/
def deepChainFrom : Nat → Node
  | 0 => .mk false "" false false (some "level") []
  | k + 1 => .mk false "" false false (some "level") [deepChainFrom k]

/-- A schema whose root has a chain of `k` nested groups below it. -/
def deepChain (k : Nat) : Node :=
  .mk false "" false false none (match k with
    | 0 => []
    | k + 1 => [deepChainFrom k])

/-- A three-level sample schema: a root group with a leaf and a nested group. -/
def sampleSchema : Node :=
  .mk false "" false false none
    [.mk true "INT64" false false (some "id") [],
     .mk false "" true false (some "address")
       [.mk true "BYTE_ARRAY" false true (some "street") []]]

/-- A leaf field whose own name is the text `(root)`. -/
def fieldNamedRoot : Node :=
  .mk true "INT64" false false (some "(root)") []

/-- Characters contributed by the names after the first: each one preceded by
its separating dot. -/
def dotted : List String → List Char
  | [] => []
  | s :: rest => '.' :: (s.data ++ dotted rest)

/-! ## cmd/generate.go -/

/-- Go's `int` is 64 bits wide: the result of an `int` operation is its
mathematical value reduced into `[-2^63, 2^63)`. -/
def wrapInt (x : Int) : Int :=
  (x + 2 ^ 63) % 2 ^ 64 - 2 ^ 63

/-- A `User` record (generate.go:33-42). `drawn` stands for the fields filled
from `math/rand` and `time.Now` (Email, Age, Score, Tags, CreatedAt, Address);
none of them feeds back into the control flow. -/
structure User (ρ : Type) where
  ID : Int
  Name : String
  drawn : ρ

/-- Observable steps of `generateSampleData`: the `Printf` calls and the calls
of `writer.Write` with the batch passed and the error returned. -/
inductive GenEvent (ρ : Type) where
  | generating (numRows rowGroupSize : Int)
  | write (batch : List (User ρ)) (err : Option GoError)
  | generated (done total : Int)
  | success (outputFile : String) (numRows : Int)

/-- Text written to standard output by a step. -/
def GenEvent.render {ρ : Type} : GenEvent ρ → String
  | .generating numRows rowGroupSize =>
    "Generating " ++ toString numRows ++ " users in RowGroups of " ++ toString rowGroupSize
      ++ "...\n"
  | .write _ _ => ""
  | .generated done total =>
    "Generated " ++ toString done ++ "/" ++ toString total ++ " users\n"
  | .success outputFile numRows =>
    "Successfully generated " ++ outputFile ++ " with " ++ toString numRows ++ " users\n"

/-- The local `batchSize := 1000` (generate.go:67). -/
def batchSize : Int := 1000

/-- The inner loop `for j := 0; j < remaining; j++` (generate.go:78-116): the
batch built for loop counter `i`. `draw` gives the random fields per user ID. -/
def makeBatch {ρ : Type} (draw : Int → ρ) (i : Int) (remaining : Nat) : List (User ρ) :=
  (List.range remaining).map (fun (j : Nat) =>
    let userID := wrapInt (wrapInt (i + (j : Int)) + 1)
    { ID := userID, Name := "User_" ++ toString userID, drawn := draw userID })

/-- The loop `for i := 0; i < numRows; i += batchSize` (generate.go:71-126),
entered with counter `i` before the `k`-th call of `writer.Write`; `writeErr k`
is the error that call returns. `fuel` bounds the number of iterations, and the
result is `none` when it runs out. -/
def generateLoop {ρ : Type} (numRows : Int) (draw : Int → ρ) (writeErr : Nat → Option GoError) :
    Nat → Int → Nat → Option (List (GenEvent ρ) × Outcome)
  | 0, _, _ => none
  | fuel + 1, i, k =>
    if i < numRows then
      let remaining := wrapInt (numRows - i)
      let remaining := if remaining > batchSize then batchSize else remaining
      if remaining < 0 then
        some ([], .panic "runtime error: makeslice: len out of range")
      else
        let batch := makeBatch draw i remaining.toNat
        match writeErr k with
        | some err =>
          some ([.write batch (some err)], .error (.wrap "failed to write batch: " err))
        | none =>
          let upTo := wrapInt (i + batchSize)
          let progress : List (GenEvent ρ) :=
            if Int.tmod upTo 10000 = 0 ∨ upTo ≥ numRows then [.generated (min upTo numRows) numRows]
            else []
          match generateLoop numRows draw writeErr fuel (wrapInt (i + batchSize)) (k + 1) with
          | none => none
          | some (later, outcome) => some (.write batch none :: progress ++ later, outcome)
    else some ([], .nil)

/-- `generateSampleData` (generate.go:50-130) with the flags `--rows`,
`--rowgroup-size`, `--output`, the result of `os.Create` and the behaviour of
the writer and of the random source as explicit arguments. The deferred `Close`
calls print nothing and are left out. The loop gets `numRows / 1000 + 2` units
of fuel. -/
def generateSampleData {ρ : Type} (numRows rowGroupSize : Int) (outputFile : String)
    (createErr : Option GoError) (draw : Int → ρ) (writeErr : Nat → Option GoError) :
    Option (List (GenEvent ρ) × Outcome) :=
  match createErr with
  | some err => some ([], .error (.wrap "failed to create output file: " err))
  | none =>
    match generateLoop numRows draw writeErr (numRows.toNat / 1000 + 2) 0 0 with
    | none => none
    | some (shown, .nil) =>
      some (.generating numRows rowGroupSize :: shown ++ [.success outputFile numRows], .nil)
    | some (shown, outcome) => some (.generating numRows rowGroupSize :: shown, outcome)

/-- The batches handed to `writer.Write` calls that succeeded, in call order. -/
def writtenBatches {ρ : Type} (events : List (GenEvent ρ)) : List (List (User ρ)) :=
  events.filterMap (fun e => match e with
    | .write batch none => some batch
    | _ => none)

/-- The user IDs `first + 1, ..., first + count` in increasing order. -/
def idsFrom (first : Int) (count : Nat) : List Int :=
  (List.range count).map (fun (j : Nat) => first + (j : Int) + 1)

/-! ## Theorems: cmd/pages.go -/

theorem failureOf_pageDescription (pageNum : Int) (page : Page) :
    ∀ e ∈ pageDescription pageNum page, failureOf e = none := by
  intro e he
  unfold pageDescription at he
  simp only [List.mem_append, List.mem_cons, List.mem_singleton, List.not_mem_nil, or_false] at he
  rcases he with (he | he) | he
  · rcases he with rfl | rfl | rfl | rfl | rfl | rfl <;> rfl
  · cases hb : page.bounds with
    | none => rw [hb] at he; simp at he; subst he; rfl
    | some b =>
      obtain ⟨lo, hi⟩ := b
      rw [hb] at he; simp at he
      rcases he with rfl | rfl <;> rfl
  · cases hd : page.dictionaryLen with
    | none => rw [hd] at he; simp at he; subst he; rfl
    | some n => rw [hd] at he; simp at he; subst he; rfl

theorem sampleLines_cases (values : List Value) :
    ∀ e ∈ sampleLines values, (∃ n, e = .sampleHeader n) ∨ (∃ i v, e = .sampleValue i v) := by
  intro e he
  unfold sampleLines at he
  split at he
  · rcases List.mem_cons.mp he with rfl | he
    · exact Or.inl ⟨_, rfl⟩
    · right
      rw [List.mem_iff_get] at he
      obtain ⟨⟨k, hk⟩, rfl⟩ := he
      simp only [List.get_eq_getElem, List.getElem_zipWith]
      exact ⟨_, _, rfl⟩
  · simp at he

theorem failureOf_sampleLines (values : List Value) :
    ∀ e ∈ sampleLines values, failureOf e = none := by
  intro e he
  rcases sampleLines_cases values e he with ⟨n, rfl⟩ | ⟨i, v, rfl⟩ <;> rfl

theorem getLast?_append_mem {α : Type} (front back : List α) (a b : α)
    (hmem : a ∈ back) (hlast : back.getLast? = some b) :
    (front ++ back).getLast? = some b := by
  rw [List.getLast?_append_of_ne_nil front (List.ne_nil_of_mem hmem)]
  exact hlast

/-- Within one page loop, a reader call that returned an error other than
`io.EOF` is the last step of the loop, and the loop returns the wrapped error. -/
theorem pageLoop_failure (maxPages : Int) :
    ∀ (script : List ReadResult) (pageNum : Int) (ev : Event) (w : GoError),
      failureOf ev = some w → ev ∈ (pageLoop maxPages pageNum script).1 →
      (pageLoop maxPages pageNum script).1.getLast? = some ev ∧
      (pageLoop maxPages pageNum script).2 = .ret w := by
  intro script
  induction script with
  | nil =>
    intro pageNum ev w hf hmem
    unfold pageLoop at hmem
    split at hmem
    · simp only [List.mem_singleton] at hmem
      subst hmem
      simp [failureOf] at hf
    · simp at hmem
  | cons head rest ih =>
    intro pageNum ev w hf hmem
    cases head with
    | fail err =>
      unfold pageLoop at hmem ⊢
      by_cases hlt : pageNum < maxPages
      · simp only [if_pos hlt] at hmem ⊢
        by_cases heof : err = .eof
        · simp only [if_pos heof, List.mem_singleton] at hmem
          subst hmem
          simp [failureOf, heof] at hf
        · simp only [if_neg heof, List.mem_singleton] at hmem ⊢
          subst hmem
          simp only [failureOf, if_neg heof, Option.some.injEq] at hf
          subst hf
          exact ⟨rfl, rfl⟩
      · simp [if_neg hlt] at hmem
    | page page =>
      unfold pageLoop at hmem ⊢
      by_cases hlt : pageNum < maxPages
      · simp only [if_pos hlt] at hmem ⊢
        have hdesc := failureOf_pageDescription pageNum page
        have hsample := failureOf_sampleLines
          (page.sample.take (min 10 (page.numValues : Int)).toNat)
        have hrec := ih (pageNum + 1) ev w hf
        cases hv : page.valuesErr with
        | none =>
          simp only [hv] at hmem ⊢
          simp only [List.mem_append, List.mem_cons, List.not_mem_nil, or_false] at hmem
          rcases hmem with (((rfl | hm) | rfl) | hm) | hm
          · simp [failureOf] at hf
          · rw [hdesc _ hm] at hf; simp at hf
          · simp [failureOf] at hf
          · rw [hsample _ hm] at hf; simp at hf
          · obtain ⟨h1, h2⟩ := hrec hm
            exact ⟨getLast?_append_mem _ _ ev ev hm h1, h2⟩
        | some err =>
          by_cases heof : err = .eof
          · simp only [hv, if_pos heof] at hmem ⊢
            simp only [List.mem_append, List.mem_cons, List.not_mem_nil, or_false] at hmem
            rcases hmem with (((rfl | hm) | rfl) | hm) | hm
            · simp [failureOf] at hf
            · rw [hdesc _ hm] at hf; simp at hf
            · simp [failureOf, heof] at hf
            · rw [hsample _ hm] at hf; simp at hf
            · obtain ⟨h1, h2⟩ := hrec hm
              exact ⟨getLast?_append_mem _ _ ev ev hm h1, h2⟩
          · simp only [hv, if_neg heof] at hmem ⊢
            simp only [List.mem_append, List.mem_cons, List.not_mem_nil, or_false] at hmem
            rcases hmem with (rfl | hm) | rfl
            · simp [failureOf] at hf
            · rw [hdesc _ hm] at hf; simp at hf
            · simp only [failureOf, if_neg heof, Option.some.injEq] at hf
              subst hf
              refine ⟨?_, rfl⟩
              exact List.getLast?_concat _
      · simp [if_neg hlt] at hmem

/-- A page loop that makes the function return did so on a reader call that
returned an error other than `io.EOF`. -/
theorem pageLoop_ret (maxPages : Int) :
    ∀ (script : List ReadResult) (pageNum : Int) (w : GoError),
      (pageLoop maxPages pageNum script).2 = .ret w →
      ∃ ev ∈ (pageLoop maxPages pageNum script).1, failureOf ev = some w := by
  intro script
  induction script with
  | nil =>
    intro pageNum w h
    unfold pageLoop at h
    split at h <;> simp at h
  | cons head rest ih =>
    intro pageNum w h
    cases head with
    | fail err =>
      unfold pageLoop at h ⊢
      by_cases hlt : pageNum < maxPages
      · simp only [if_pos hlt] at h ⊢
        by_cases heof : err = .eof
        · simp [if_pos heof] at h
        · simp only [if_neg heof, LoopExit.ret.injEq] at h ⊢
          subst h
          exact ⟨_, List.mem_singleton.mpr rfl, by simp [failureOf, heof]⟩
      · simp [if_neg hlt] at h
    | page page =>
      unfold pageLoop at h ⊢
      by_cases hlt : pageNum < maxPages
      · simp only [if_pos hlt] at h ⊢
        cases hv : page.valuesErr with
        | none =>
          simp only [hv] at h ⊢
          obtain ⟨ev, hm, hf⟩ := ih (pageNum + 1) w h
          exact ⟨ev, List.mem_append_right _ hm, hf⟩
        | some err =>
          by_cases heof : err = .eof
          · simp only [hv, if_pos heof] at h ⊢
            obtain ⟨ev, hm, hf⟩ := ih (pageNum + 1) w h
            exact ⟨ev, List.mem_append_right _ hm, hf⟩
          · simp only [hv, if_neg heof, LoopExit.ret.injEq] at h ⊢
            subst h
            refine ⟨_, List.mem_append_right _ (List.mem_singleton.mpr rfl), ?_⟩
            simp [failureOf, heof]
      · simp [if_neg hlt] at h

theorem sliceIndex_some {α : Type} (s : List α) (i : Int) (a : α)
    (h : sliceIndex s i = some a) : 0 ≤ i ∧ i < (s.length : Int) := by
  unfold sliceIndex at h
  by_cases hneg : i < 0
  · simp [hneg] at h
  · rw [if_neg hneg] at h
    have hlt : i.toNat < s.length := by
      by_contra hge
      rw [List.getElem?_eq_none (by omega)] at h
      exact Option.noConfusion h
    omega

theorem sliceIndex_in_range {α : Type} (s : List α) (i : Int)
    (h0 : 0 ≤ i) (h1 : i < (s.length : Int)) : ∃ a, sliceIndex s i = some a := by
  unfold sliceIndex
  rw [if_neg (by omega)]
  have hlt : i.toNat < s.length := by omega
  exact ⟨s[i.toNat], List.getElem?_eq_getElem hlt⟩

/-- Shape of one row-group step when the chunk at `columnIndex` exists. -/
theorem rowGroupBody_chunk (columnIndex maxPages : Int) (rgIdx : Nat) (rowGroup : RowGroup)
    (chunk : ColumnChunk) (h : sliceIndex rowGroup.columnChunks columnIndex = some chunk) :
    rowGroupBody columnIndex maxPages rgIdx rowGroup =
      match pageLoop maxPages 0 chunk.pages with
      | (shown, .ret err) =>
        ([.rowGroupHeader rgIdx, .indexChunk columnIndex, .columnType chunk.typeName,
          .totalValues chunk.numValues] ++ shown, .ret err)
      | (shown, .done pageNum) =>
        ([.rowGroupHeader rgIdx, .indexChunk columnIndex, .columnType chunk.typeName,
          .totalValues chunk.numValues] ++ shown
          ++ (if pageNum = maxPages then [.onlyFirst maxPages] else []) ++ [.blankLine],
         .next) := by
  have hr := sliceIndex_some _ _ _ h
  unfold rowGroupBody
  simp only [ge_iff_le]
  rw [if_neg (by omega), h]

theorem rowGroupBody_failure (columnIndex maxPages : Int) (rgIdx : Nat) (rowGroup : RowGroup)
    (ev : Event) (w : GoError) (hf : failureOf ev = some w)
    (hmem : ev ∈ (rowGroupBody columnIndex maxPages rgIdx rowGroup).1) :
    (rowGroupBody columnIndex maxPages rgIdx rowGroup).1.getLast? = some ev ∧
    (rowGroupBody columnIndex maxPages rgIdx rowGroup).2 = .ret w := by
  cases hs : sliceIndex rowGroup.columnChunks columnIndex with
  | none =>
    exfalso
    unfold rowGroupBody at hmem
    simp only [hs] at hmem
    split at hmem
    · simp only [List.mem_singleton] at hmem
      subst hmem
      simp [failureOf] at hf
    · simp only [List.mem_cons, List.not_mem_nil, or_false] at hmem
      rcases hmem with rfl | rfl <;> simp [failureOf] at hf
  | some chunk =>
    rw [rowGroupBody_chunk _ _ _ _ _ hs] at hmem ⊢
    have hloop := pageLoop_failure maxPages chunk.pages 0 ev w hf
    rcases hp : pageLoop maxPages 0 chunk.pages with ⟨shown, exit⟩
    rw [hp] at hloop
    cases exit with
    | ret err =>
      simp only [hp] at hmem ⊢
      simp only [List.mem_append, List.mem_cons, List.not_mem_nil, or_false] at hmem
      rcases hmem with (rfl | rfl | rfl | rfl) | hm
      · simp [failureOf] at hf
      · simp [failureOf] at hf
      · simp [failureOf] at hf
      · simp [failureOf] at hf
      · obtain ⟨h1, h2⟩ := hloop hm
        simp only [LoopExit.ret.injEq] at h2
        exact ⟨getLast?_append_mem _ _ ev ev hm h1, by rw [h2]⟩
    | done pageNum =>
      exfalso
      simp only [hp] at hmem
      simp only [List.mem_append, List.mem_cons, List.not_mem_nil, or_false] at hmem
      rcases hmem with (((rfl | rfl | rfl | rfl) | hm) | hm) | rfl
      · simp [failureOf] at hf
      · simp [failureOf] at hf
      · simp [failureOf] at hf
      · simp [failureOf] at hf
      · have := (hloop hm).2
        simp at this
      · split at hm
        · simp only [List.mem_singleton] at hm
          subst hm
          simp [failureOf] at hf
        · simp at hm
      · simp [failureOf] at hf

theorem rowGroupsLoop_cons (columnIndex maxPages : Int) (rgIdx : Nat) (rowGroup : RowGroup)
    (rest : List RowGroup) :
    rowGroupsLoop columnIndex maxPages rgIdx (rowGroup :: rest) =
      match rowGroupBody columnIndex maxPages rgIdx rowGroup with
      | (shown, .ret err) => (shown, .error err)
      | (shown, .panic message) => (shown, .panic message)
      | (shown, .next) =>
        (shown ++ (rowGroupsLoop columnIndex maxPages (rgIdx + 1) rest).1,
         (rowGroupsLoop columnIndex maxPages (rgIdx + 1) rest).2) := by
  rw [rowGroupsLoop]

theorem rowGroupsLoop_failure (columnIndex maxPages : Int) :
    ∀ (rowGroups : List RowGroup) (rgIdx : Nat) (ev : Event) (w : GoError),
      failureOf ev = some w → ev ∈ (rowGroupsLoop columnIndex maxPages rgIdx rowGroups).1 →
      (rowGroupsLoop columnIndex maxPages rgIdx rowGroups).1.getLast? = some ev ∧
      (rowGroupsLoop columnIndex maxPages rgIdx rowGroups).2 = .error w := by
  intro rowGroups
  induction rowGroups with
  | nil =>
    intro rgIdx ev w _ hmem
    simp [rowGroupsLoop] at hmem
  | cons rowGroup rest ih =>
    intro rgIdx ev w hf hmem
    have hbody := rowGroupBody_failure columnIndex maxPages rgIdx rowGroup ev w hf
    rw [rowGroupsLoop_cons] at hmem ⊢
    rcases hb : rowGroupBody columnIndex maxPages rgIdx rowGroup with ⟨shown, exit⟩
    rw [hb] at hbody
    cases exit with
    | ret err =>
      simp only [hb] at hmem ⊢
      obtain ⟨h1, h2⟩ := hbody hmem
      simp only [BodyExit.ret.injEq] at h2
      exact ⟨h1, by rw [h2]⟩
    | panic message =>
      simp only [hb] at hmem
      have := (hbody hmem).2
      simp at this
    | next =>
      simp only [hb] at hmem ⊢
      rcases List.mem_append.mp hmem with hm | hm
      · have := (hbody hm).2
        simp at this
      · obtain ⟨h1, h2⟩ := ih (rgIdx + 1) ev w hf hm
        exact ⟨getLast?_append_mem _ _ ev ev hm h1, h2⟩

theorem rowGroupsLoop_append (columnIndex maxPages : Int) :
    ∀ (before : List RowGroup) (rgIdx : Nat) (rest : List RowGroup) (shown : List Event),
      rowGroupsLoop columnIndex maxPages rgIdx before = (shown, .nil) →
      rowGroupsLoop columnIndex maxPages rgIdx (before ++ rest) =
        (shown ++ (rowGroupsLoop columnIndex maxPages (rgIdx + before.length) rest).1,
         (rowGroupsLoop columnIndex maxPages (rgIdx + before.length) rest).2) := by
  intro before
  induction before with
  | nil =>
    intro rgIdx rest shown h
    simp only [rowGroupsLoop, Prod.mk.injEq, and_true] at h
    subst h
    simp
  | cons rowGroup before ih =>
    intro rgIdx rest shown h
    simp only [List.cons_append, List.length_cons]
    rw [rowGroupsLoop_cons] at h ⊢
    rcases hb : rowGroupBody columnIndex maxPages rgIdx rowGroup with ⟨first, exit⟩
    cases exit with
    | ret err => simp [hb] at h
    | panic message => simp [hb] at h
    | next =>
      simp only [hb] at h ⊢
      simp only [Prod.mk.injEq] at h
      obtain ⟨h1, h2⟩ := h
      have hrec := ih (rgIdx + 1) rest (rowGroupsLoop columnIndex maxPages (rgIdx + 1) before).1
        (by rw [← h2])
      rw [hrec, ← h1]
      have hidx : rgIdx + 1 + before.length = rgIdx + (before.length + 1) := by omega
      simp [hidx]

/-- With the column index in range everywhere and no reader call returning an
error other than `io.EOF`, every row group is visited and the loop ends normally. -/
theorem rowGroupsLoop_nil (columnIndex maxPages : Int) :
    ∀ (rowGroups : List RowGroup) (rgIdx : Nat),
      (∀ rg ∈ rowGroups, 0 ≤ columnIndex ∧ columnIndex < (rg.columnChunks.length : Int)) →
      (∀ ev ∈ (rowGroupsLoop columnIndex maxPages rgIdx rowGroups).1, failureOf ev = none) →
      (rowGroupsLoop columnIndex maxPages rgIdx rowGroups).2 = .nil ∧
      ∀ j, j < rowGroups.length →
        Event.rowGroupHeader (rgIdx + j) ∈ (rowGroupsLoop columnIndex maxPages rgIdx rowGroups).1 := by
  intro rowGroups
  induction rowGroups with
  | nil =>
    intro rgIdx _ _
    exact ⟨rfl, fun j hj => by simp at hj⟩
  | cons rowGroup rest ih =>
    intro rgIdx hrange hclean
    obtain ⟨h0, h1⟩ := hrange rowGroup (List.mem_cons_self _ _)
    obtain ⟨chunk, hchunk⟩ := sliceIndex_in_range rowGroup.columnChunks columnIndex h0 h1
    have hshape := rowGroupBody_chunk columnIndex maxPages rgIdx rowGroup chunk hchunk
    have hret := pageLoop_ret maxPages chunk.pages 0
    rw [rowGroupsLoop_cons] at hclean ⊢
    rcases hp : pageLoop maxPages 0 chunk.pages with ⟨shown, exit⟩
    rw [hp] at hshape hret
    cases exit with
    | ret err =>
      exfalso
      simp only [hshape] at hclean
      obtain ⟨ev, hm, hf⟩ := hret err rfl
      have := hclean ev (List.mem_append_right _ hm)
      rw [hf] at this
      exact Option.noConfusion this
    | done pageNum =>
      simp only [hshape] at hclean ⊢
      have hrec := ih (rgIdx + 1) (fun rg hrg => hrange rg (List.mem_cons_of_mem _ hrg))
        (fun ev hev => hclean ev (List.mem_append_right _ hev))
      refine ⟨hrec.1, ?_⟩
      intro j hj
      cases j with
      | zero => simp
      | succ j =>
        have := hrec.2 j (by simpa using hj)
        have hidx : rgIdx + 1 + j = rgIdx + (j + 1) := by omega
        rw [hidx] at this
        exact List.mem_append_right _ this

theorem explorePages_failure (columnIndex maxPages : Int) (filename : String) (fs : OpenResult)
    (ev : Event) (w : GoError) (hf : failureOf ev = some w)
    (hmem : ev ∈ (explorePages columnIndex maxPages filename fs).1) :
    (explorePages columnIndex maxPages filename fs).1.getLast? = some ev ∧
    (explorePages columnIndex maxPages filename fs).2 = .error w := by
  cases fs with
  | openFailed err => simp [explorePages] at hmem
  | statFailed err => simp [explorePages] at hmem
  | parquetFailed err => simp [explorePages] at hmem
  | opened file =>
    simp only [explorePages] at hmem ⊢
    simp only [List.mem_cons] at hmem
    rcases hmem with rfl | rfl | hm
    · simp [failureOf] at hf
    · simp [failureOf] at hf
    · obtain ⟨h1, h2⟩ := rowGroupsLoop_failure columnIndex maxPages file.rowGroups 0 ev w hf hm
      refine ⟨?_, h2⟩
      exact getLast?_append_mem
        [.analysisHeader filename, .analyzingColumn columnIndex] _ ev ev hm h1

/-- C1: when a row group is reached (all earlier row groups were gone through
without a return) and the column index is at least the number of its chunks,
`explorePages` returns the error `column index k out of range (max: len-1)`, and
the run ends with that row group's header: the chunk list is not indexed and no
page of the row group is read. -/
theorem explorePages_column_out_of_range (columnIndex maxPages : Int) (filename : String)
    (before : List RowGroup) (rowGroup : RowGroup) (after : List RowGroup)
    (shown : List Event)
    (hreach : rowGroupsLoop columnIndex maxPages 0 before = (shown, .nil))
    (hk : columnIndex ≥ (rowGroup.columnChunks.length : Int)) :
    explorePages columnIndex maxPages filename (.opened ⟨before ++ rowGroup :: after⟩) =
      (.analysisHeader filename :: .analyzingColumn columnIndex ::
          (shown ++ [.rowGroupHeader before.length]),
       .error (.other ("column index " ++ toString columnIndex ++ " out of range (max: "
          ++ toString ((rowGroup.columnChunks.length : Int) - 1) ++ ")"))) := by
  have happ := rowGroupsLoop_append columnIndex maxPages before 0 (rowGroup :: after) shown hreach
  have hbody : rowGroupBody columnIndex maxPages (0 + before.length) rowGroup =
      ([.rowGroupHeader (0 + before.length)],
       .ret (.other ("column index " ++ toString columnIndex ++ " out of range (max: "
          ++ toString ((rowGroup.columnChunks.length : Int) - 1) ++ ")"))) := by
    unfold rowGroupBody
    simp only [if_pos hk]
  rw [rowGroupsLoop_cons, hbody] at happ
  simp only [explorePages, happ, Nat.zero_add]

theorem explorePages_column_out_of_range_witness :
    rowGroupsLoop 1 5 0 [⟨[chunkEmpty, chunkEmpty]⟩]
      = ((rowGroupsLoop 1 5 0 [⟨[chunkEmpty, chunkEmpty]⟩]).1, .nil) ∧
    (1 : Int) ≥ ((⟨[chunkEmpty]⟩ : RowGroup).columnChunks.length : Int) ∧
    explorePages 1 5 "sample.parquet" (.opened ⟨[⟨[chunkEmpty, chunkEmpty]⟩] ++ ⟨[chunkEmpty]⟩ :: []⟩) =
      (.analysisHeader "sample.parquet" :: .analyzingColumn 1 ::
          ((rowGroupsLoop 1 5 0 [⟨[chunkEmpty, chunkEmpty]⟩]).1
            ++ [.rowGroupHeader [(⟨[chunkEmpty, chunkEmpty]⟩ : RowGroup)].length]),
       .error (.other ("column index " ++ toString (1 : Int) ++ " out of range (max: "
          ++ toString ((((⟨[chunkEmpty]⟩ : RowGroup).columnChunks.length : Nat) : Int) - 1) ++ ")"))) :=
  ⟨by decide, by decide,
   explorePages_column_out_of_range 1 5 "sample.parquet" [⟨[chunkEmpty, chunkEmpty]⟩]
     ⟨[chunkEmpty]⟩ [] _ (by decide) (by decide)⟩

/-- The out-of-range message on a concrete run, as text. -/
theorem out_of_range_message_text :
    (explorePages 1 5 "sample.parquet" (.opened fileRagged)).2
      = .error (.other "column index 1 out of range (max: 0)") := by
  decide

/-- C2 fails on the code: with `--column -1` the guard `columnIndex >= len(chunks)`
is false, `chunks[columnIndex]` is evaluated with a negative index, and the run
ends in a run-time panic instead of the out-of-range error. -/
theorem explorePages_negative_column_panics :
    explorePages (-1) 5 "sample.parquet" (.opened file1) =
      ([.analysisHeader "sample.parquet", .analyzingColumn (-1), .rowGroupHeader 0,
        .indexChunk (-1)],
       .panic "runtime error: index out of range [-1]") := by
  decide

/-- Every negative column index makes the first row group's indexing panic. -/
theorem explorePages_negative_column_always_panics (columnIndex maxPages : Int)
    (filename : String) (rowGroup : RowGroup) (rest : List RowGroup) (h : columnIndex < 0) :
    (explorePages columnIndex maxPages filename (.opened ⟨rowGroup :: rest⟩)).2 =
      .panic ("runtime error: index out of range [" ++ toString columnIndex ++ "]") := by
  have hbody : rowGroupBody columnIndex maxPages 0 rowGroup =
      ([.rowGroupHeader 0, .indexChunk columnIndex],
       .panic ("runtime error: index out of range [" ++ toString columnIndex ++ "]")) := by
    unfold rowGroupBody sliceIndex
    have hlen : ¬ (columnIndex ≥ (rowGroup.columnChunks.length : Int)) := by omega
    simp only [if_neg hlen, if_pos h]
  simp only [explorePages, rowGroupsLoop_cons, hbody]

/-- C3: an `io.EOF` answer from `ReadPage` ends the page loop of its row group
without an error; if the column index is in range in every row group and no
`ReadPage` or `ReadValues` call of the run returns an error other than `io.EOF`,
every row group is gone through and `explorePages` returns nil. -/
theorem explorePages_eof_is_not_an_error (columnIndex maxPages : Int) (filename : String)
    (file : ParquetFile)
    (hrange : ∀ rg ∈ file.rowGroups,
      0 ≤ columnIndex ∧ columnIndex < (rg.columnChunks.length : Int))
    (hpage : ∀ err, Event.readPage (some err)
      ∈ (explorePages columnIndex maxPages filename (.opened file)).1 → err = .eof)
    (hvalues : ∀ bufLen n err, Event.readValues bufLen n (some err)
      ∈ (explorePages columnIndex maxPages filename (.opened file)).1 → err = .eof) :
    (explorePages columnIndex maxPages filename (.opened file)).2 = .nil ∧
    (∀ j, j < file.rowGroups.length →
      Event.rowGroupHeader j ∈ (explorePages columnIndex maxPages filename (.opened file)).1) ∧
    (∀ pageNum rest, pageNum < maxPages →
      pageLoop maxPages pageNum (.fail .eof :: rest)
        = ([.readPage (some .eof)], .done pageNum)) ∧
    (∀ rgIdx rowGroup chunk last,
      sliceIndex rowGroup.columnChunks columnIndex = some chunk →
      (pageLoop maxPages 0 chunk.pages).2 = .done last →
      (rowGroupBody columnIndex maxPages rgIdx rowGroup).2 = .next) := by
  have hclean : ∀ ev ∈ (rowGroupsLoop columnIndex maxPages 0 file.rowGroups).1,
      failureOf ev = none := by
    intro ev hev
    have hin : ev ∈ (explorePages columnIndex maxPages filename (.opened file)).1 := by
      simp only [explorePages]
      exact List.mem_cons_of_mem _ (List.mem_cons_of_mem _ hev)
    cases ev with
    | readPage err =>
      cases err with
      | none => rfl
      | some err => simp [failureOf, hpage err hin]
    | readValues bufLen n err =>
      cases err with
      | none => rfl
      | some err => simp [failureOf, hvalues bufLen n err hin]
    | _ => rfl
  obtain ⟨h1, h2⟩ := rowGroupsLoop_nil columnIndex maxPages file.rowGroups 0 hrange hclean
  refine ⟨by simpa [explorePages] using h1, ?_, ?_, ?_⟩
  · intro j hj
    have := h2 j hj
    rw [Nat.zero_add] at this
    simp only [explorePages]
    exact List.mem_cons_of_mem _ (List.mem_cons_of_mem _ this)
  · intro pageNum rest hlt
    simp [pageLoop, hlt]
  · intro rgIdx rowGroup chunk last hchunk hdone
    rw [rowGroupBody_chunk _ _ _ _ _ hchunk]
    rcases hp : pageLoop maxPages 0 chunk.pages with ⟨shown, exit⟩
    rw [hp] at hdone
    have hexit : exit = .done last := hdone
    subst hexit
    rfl

theorem explorePages_trace_fileEmptyChunks :
    (explorePages 0 5 "sample.parquet" (.opened fileEmptyChunks)).1 =
      [.analysisHeader "sample.parquet", .analyzingColumn 0,
       .rowGroupHeader 0, .indexChunk 0, .columnType "INT64", .totalValues 0,
       .readPage (some .eof), .blankLine,
       .rowGroupHeader 1, .indexChunk 0, .columnType "INT64", .totalValues 0,
       .readPage (some .eof), .blankLine] := by
  decide

theorem explorePages_eof_is_not_an_error_witness :
    (∀ rg ∈ fileEmptyChunks.rowGroups, (0 : Int) ≤ 0 ∧ (0 : Int) < (rg.columnChunks.length : Int)) ∧
    (explorePages 0 5 "sample.parquet" (.opened fileEmptyChunks)).2 = .nil ∧
    (∀ j, j < fileEmptyChunks.rowGroups.length →
      Event.rowGroupHeader j ∈ (explorePages 0 5 "sample.parquet" (.opened fileEmptyChunks)).1) ∧
    (∀ pageNum rest, pageNum < (5 : Int) →
      pageLoop 5 pageNum (.fail .eof :: rest) = ([.readPage (some .eof)], .done pageNum)) ∧
    (∀ rgIdx rowGroup chunk last,
      sliceIndex rowGroup.columnChunks 0 = some chunk →
      (pageLoop 5 0 chunk.pages).2 = .done last →
      (rowGroupBody 0 5 rgIdx rowGroup).2 = .next) :=
  ⟨by decide,
   explorePages_eof_is_not_an_error 0 5 "sample.parquet" fileEmptyChunks (by decide)
     (by
       intro err h
       rw [explorePages_trace_fileEmptyChunks] at h
       simpa using h)
     (by
       intro bufLen n err h
       rw [explorePages_trace_fileEmptyChunks] at h
       simp at h)⟩

/-- C4: a `ReadPage` or `ReadValues` call that returns an error other than
`io.EOF` is the last step of the run (nothing is printed after it), and
`explorePages` returns an error wrapping the one the call returned. -/
theorem explorePages_read_errors_returned (columnIndex maxPages : Int) (filename : String)
    (fs : OpenResult) (err : GoError) (hne : err ≠ .eof) :
    (Event.readPage (some err) ∈ (explorePages columnIndex maxPages filename fs).1 →
      (explorePages columnIndex maxPages filename fs).1.getLast?
          = some (Event.readPage (some err)) ∧
      (explorePages columnIndex maxPages filename fs).2
          = .error (.wrap "failed to read page: " err)) ∧
    (∀ bufLen n,
      Event.readValues bufLen n (some err) ∈ (explorePages columnIndex maxPages filename fs).1 →
      (explorePages columnIndex maxPages filename fs).1.getLast?
          = some (Event.readValues bufLen n (some err)) ∧
      (explorePages columnIndex maxPages filename fs).2
          = .error (.wrap "failed to read values: " err)) := by
  constructor
  · intro hmem
    exact explorePages_failure columnIndex maxPages filename fs _ _
      (by simp [failureOf, hne]) hmem
  · intro bufLen n hmem
    exact explorePages_failure columnIndex maxPages filename fs _ _
      (by simp [failureOf, hne]) hmem

theorem explorePages_read_errors_returned_witness :
    GoError.other "corrupt page" ≠ .eof ∧
    Event.readPage (some (.other "corrupt page"))
      ∈ (explorePages 0 5 "sample.parquet" (.opened fileBadPage)).1 ∧
    (explorePages 0 5 "sample.parquet" (.opened fileBadPage)).1.getLast?
      = some (Event.readPage (some (.other "corrupt page"))) ∧
    (explorePages 0 5 "sample.parquet" (.opened fileBadPage)).2
      = .error (.wrap "failed to read page: " (.other "corrupt page")) :=
  ⟨by decide, by decide,
   (explorePages_read_errors_returned 0 5 "sample.parquet" (.opened fileBadPage)
     (.other "corrupt page") (by decide)).1 (by decide)⟩

/-- The `ReadValues` half of C4 on a concrete run. -/
theorem explorePages_values_error_sample :
    explorePages 0 5 "sample.parquet" (.opened fileBadValues) =
      ([.analysisHeader "sample.parquet", .analyzingColumn 0,
        .rowGroupHeader 0, .indexChunk 0, .columnType "INT64", .totalValues 6,
        .readPage none, .pageHeader 0, .pageValues 3, .pageRows 3, .pageNulls 0, .pageSize 24,
        .pageColumn 0, .boundsNotAvailable, .dictionaryEntries 2,
        .readValues 3 1 (some (.other "corrupt values"))],
       .error (.wrap "failed to read values: " (.other "corrupt values"))) := by
  decide

theorem shownPages_append (a b : List Event) :
    shownPages (a ++ b) = shownPages a ++ shownPages b := by
  simp [shownPages, List.filterMap_append]

theorem shownPages_pageDescription (pageNum : Int) (page : Page) :
    shownPages (pageDescription pageNum page) = [pageNum] := by
  unfold pageDescription
  cases page.bounds with
  | none => cases page.dictionaryLen <;> rfl
  | some b => cases page.dictionaryLen <;> rfl

theorem shownPages_sampleLines (values : List Value) :
    shownPages (sampleLines values) = [] := by
  unfold shownPages
  rw [List.filterMap_eq_nil_iff]
  intro e he
  rcases sampleLines_cases values e he with ⟨n, rfl⟩ | ⟨i, v, rfl⟩ <;> rfl

/-- Pages shown by a page loop over `pages` readable pages followed by end of
sequence: the first `min (maxPages - pageNum) (pages.length)` of them (none when
that is negative), numbered consecutively from `pageNum`. -/
theorem pageLoop_shownPages (maxPages : Int) :
    ∀ (pages : List Page) (pageNum : Int) (tail : List ReadResult),
      (tail = [] ∨ ∃ rest, tail = .fail .eof :: rest) →
      (∀ p ∈ pages, p.valuesErr = none ∨ p.valuesErr = some .eof) →
      shownPages (pageLoop maxPages pageNum (pages.map .page ++ tail)).1 =
        (List.range (Min.min (maxPages - pageNum) (pages.length : Int)).toNat).map
          (fun (i : Nat) => pageNum + (i : Int)) := by
  intro pages
  induction pages with
  | nil =>
    intro pageNum tail htail _
    have hzero : (Min.min (maxPages - pageNum) (([] : List Page).length : Int)).toNat = 0 := by
      simp only [List.length_nil, Nat.cast_zero]
      omega
    rw [hzero]
    simp only [List.map_nil, List.nil_append, List.range_zero]
    rcases htail with rfl | ⟨rest, rfl⟩
    · unfold pageLoop
      split <;> rfl
    · unfold pageLoop
      split <;> rfl
  | cons page pages ih =>
    intro pageNum tail htail hvalues
    have hrec := ih (pageNum + 1) tail htail
      (fun p hp => hvalues p (List.mem_cons_of_mem _ hp))
    simp only [List.map_cons, List.cons_append]
    rw [pageLoop]
    by_cases hlt : pageNum < maxPages
    · have hcount : (Min.min (maxPages - pageNum) ((page :: pages).length : Int)).toNat
          = (Min.min (maxPages - (pageNum + 1)) (pages.length : Int)).toNat + 1 := by
        simp only [List.length_cons, Nat.cast_add, Nat.cast_one]
        omega
      rw [hcount, List.range_succ_eq_map, List.map_cons, List.map_map]
      have hshift : ((fun i : Nat => pageNum + (i : Int)) ∘ Nat.succ)
          = (fun i : Nat => pageNum + 1 + (i : Int)) := by
        funext i
        simp only [Function.comp, Nat.succ_eq_add_one, Nat.cast_add, Nat.cast_one]
        omega
      rw [hshift, ← hrec]
      simp only [if_pos hlt]
      have hbenign := hvalues page (List.mem_cons_self _ _)
      have hfirst : shownPages (Event.readPage none :: pageDescription pageNum page)
          = [pageNum] := by
        rw [← List.singleton_append, shownPages_append, shownPages_pageDescription]
        rfl
      rcases hbenign with hv | hv
      · simp only [hv, shownPages_append, shownPages_sampleLines, List.append_nil, hfirst]
        simp [shownPages]
      · simp only [hv, if_true, shownPages_append, shownPages_sampleLines, List.append_nil,
          hfirst]
        simp [shownPages]
    · have hzero : (Min.min (maxPages - pageNum) ((page :: pages).length : Int)).toNat = 0 := by
        simp only [List.length_cons, Nat.cast_add, Nat.cast_one]
        omega
      rw [hzero]
      simp [if_neg hlt, shownPages]

/-- A page loop over readable pages followed by end of sequence does not make
the function return. -/
theorem pageLoop_done (maxPages : Int) :
    ∀ (pages : List Page) (pageNum : Int) (tail : List ReadResult),
      (tail = [] ∨ ∃ rest, tail = .fail .eof :: rest) →
      (∀ p ∈ pages, p.valuesErr = none ∨ p.valuesErr = some .eof) →
      ∃ last, (pageLoop maxPages pageNum (pages.map .page ++ tail)).2 = .done last := by
  intro pages
  induction pages with
  | nil =>
    intro pageNum tail htail _
    simp only [List.map_nil, List.nil_append]
    rcases htail with rfl | ⟨rest, rfl⟩
    · unfold pageLoop
      split <;> exact ⟨_, rfl⟩
    · unfold pageLoop
      split <;> exact ⟨_, rfl⟩
  | cons page pages ih =>
    intro pageNum tail htail hvalues
    obtain ⟨last, hlast⟩ := ih (pageNum + 1) tail htail
      (fun p hp => hvalues p (List.mem_cons_of_mem _ hp))
    simp only [List.map_cons, List.cons_append]
    rw [pageLoop]
    by_cases hlt : pageNum < maxPages
    · simp only [if_pos hlt]
      rcases hvalues page (List.mem_cons_self _ _) with hv | hv
      · simp only [hv]
        exact ⟨last, hlast⟩
      · simp only [hv, if_true]
        exact ⟨last, hlast⟩
    · simp only [if_neg hlt]
      exact ⟨_, rfl⟩

/-- C5 (as amended): for every `--max-pages` value and every chunk holding `P`
pages whose reads all succeed, the step of `explorePages` for that row group
shows exactly `min (max maxPages 0) P` pages, numbered 0, 1, 2, ... in read
order; in particular it never shows more than `max maxPages 0` pages. -/
theorem rowGroupBody_shows_first_pages (columnIndex maxPages : Int) (rgIdx : Nat)
    (rowGroup : RowGroup) (chunk : ColumnChunk) (pages : List Page) (tail : List ReadResult)
    (hchunk : sliceIndex rowGroup.columnChunks columnIndex = some chunk)
    (hpages : chunk.pages = pages.map .page ++ tail)
    (htail : tail = [] ∨ ∃ rest, tail = .fail .eof :: rest)
    (hvalues : ∀ p ∈ pages, p.valuesErr = none ∨ p.valuesErr = some .eof) :
    shownPages (rowGroupBody columnIndex maxPages rgIdx rowGroup).1 =
      (List.range (Min.min (Max.max maxPages 0) (pages.length : Int)).toNat).map
        (fun (i : Nat) => (i : Int)) ∧
    ((shownPages (rowGroupBody columnIndex maxPages rgIdx rowGroup).1).length : Int)
      ≤ Max.max maxPages 0 := by
  have hshown := pageLoop_shownPages maxPages pages 0 tail htail hvalues
  obtain ⟨last, hlast⟩ := pageLoop_done maxPages pages 0 tail htail hvalues
  have hcount : (Min.min (maxPages - 0) (pages.length : Int)).toNat
      = (Min.min (Max.max maxPages 0) (pages.length : Int)).toNat := by
    omega
  have hmain : shownPages (rowGroupBody columnIndex maxPages rgIdx rowGroup).1 =
      (List.range (Min.min (Max.max maxPages 0) (pages.length : Int)).toNat).map
        (fun (i : Nat) => (i : Int)) := by
    rw [rowGroupBody_chunk _ _ _ _ _ hchunk, hpages]
    rcases hp : pageLoop maxPages 0 (pages.map .page ++ tail) with ⟨shown, exit⟩
    rw [hp] at hshown hlast
    have hexit : exit = .done last := hlast
    subst hexit
    rw [hp]
    simp only [shownPages_append, hshown, hcount, Int.zero_add]
    have hopening : shownPages [Event.rowGroupHeader rgIdx, Event.indexChunk columnIndex,
        Event.columnType chunk.typeName, Event.totalValues chunk.numValues] = [] := rfl
    have hclosing : shownPages [Event.blankLine] = [] := rfl
    have honly : shownPages (if last = maxPages then [Event.onlyFirst maxPages] else []) = [] := by
      split <;> rfl
    rw [hopening, hclosing, honly]
    simp
  refine ⟨hmain, ?_⟩
  rw [hmain]
  simp only [List.length_map, List.length_range]
  omega

theorem rowGroupBody_shows_first_pages_witness :
    sliceIndex (⟨[chunk1]⟩ : RowGroup).columnChunks 0 = some chunk1 ∧
    chunk1.pages = [page1, page1].map .page ++ [] ∧
    (∀ p ∈ [page1, page1], p.valuesErr = none ∨ p.valuesErr = some .eof) ∧
    shownPages (rowGroupBody 0 1 0 ⟨[chunk1]⟩).1 =
      (List.range (Min.min (Max.max (1 : Int) 0) (([page1, page1].length : Nat) : Int)).toNat).map
        (fun (i : Nat) => (i : Int)) ∧
    ((shownPages (rowGroupBody 0 1 0 ⟨[chunk1]⟩).1).length : Int) ≤ Max.max (1 : Int) 0 :=
  ⟨by decide, by decide, by decide,
   rowGroupBody_shows_first_pages 0 1 0 ⟨[chunk1]⟩ chunk1 [page1, page1] []
     (by decide) (by decide) (Or.inl rfl) (by decide)⟩

/-- The page numbers shown on concrete runs with `--max-pages` 1, 5 and 0. -/
theorem shown_pages_on_sample_runs :
    shownPages (rowGroupBody 0 1 0 ⟨[chunk1]⟩).1 = [0] ∧
    shownPages (rowGroupBody 0 5 0 ⟨[chunk1]⟩).1 = [0, 1] ∧
    shownPages (rowGroupBody 0 0 0 ⟨[chunk1]⟩).1 = [] := by
  decide

/-- C5 fails as stated for a negative `--max-pages`: no page is shown, and zero
pages is still more than a negative `maxPages`. -/
theorem rowGroupBody_negative_maxPages :
    shownPages (rowGroupBody 0 (-1) 0 ⟨[chunk1]⟩).1 = [] ∧
    ¬ (((shownPages (rowGroupBody 0 (-1) 0 ⟨[chunk1]⟩).1).length : Int) ≤ -1) := by
  decide

/-- The steps of a reached row group appear as one block in the run of
`explorePages`, right after the steps of the row groups before it. -/
theorem explorePages_rowGroup_block (columnIndex maxPages : Int) (filename : String)
    (before : List RowGroup) (rowGroup : RowGroup) (after : List RowGroup)
    (shown : List Event)
    (hreach : rowGroupsLoop columnIndex maxPages 0 before = (shown, .nil)) :
    ∃ later,
      (explorePages columnIndex maxPages filename (.opened ⟨before ++ rowGroup :: after⟩)).1 =
        .analysisHeader filename :: .analyzingColumn columnIndex ::
          (shown ++ (rowGroupBody columnIndex maxPages before.length rowGroup).1 ++ later) := by
  have happ := rowGroupsLoop_append columnIndex maxPages before 0 (rowGroup :: after) shown hreach
  rw [rowGroupsLoop_cons, Nat.zero_add] at happ
  simp only [explorePages, happ]
  rcases hb : rowGroupBody columnIndex maxPages before.length rowGroup with ⟨first, exit⟩
  cases exit with
  | next =>
    refine ⟨(rowGroupsLoop columnIndex maxPages (before.length + 1) after).1, ?_⟩
    simp
  | ret err =>
    refine ⟨[], ?_⟩
    simp
  | panic message =>
    refine ⟨[], ?_⟩
    simp

/-! ## Theorems: cmd/schema.go -/

theorem spaces_succ (k : Nat) : spaces (2 * k) ++ "  " = spaces (2 * (k + 1)) := by
  apply String.ext
  simp [spaces, String.data_append, Nat.mul_succ, List.replicate_add]

theorem line_assoc (indent a b c : String) :
    indent ++ a ++ " " ++ b ++ " " ++ c = indent ++ (a ++ " " ++ b ++ " " ++ c) := by
  simp [String.append_assoc]

mutual
theorem preorder_depth_le : ∀ (n : Node) (d : Nat) (p : Nat × Node), p ∈ preorder d n → d ≤ p.1
  | .mk leaf ty opt rep nm fs, d, p, hp => by
    simp only [preorder, List.mem_cons] at hp
    rcases hp with rfl | hp
    · exact Nat.le_refl _
    · cases leaf with
      | true => simp at hp
      | false =>
        simp only [Bool.false_eq_true, if_false] at hp
        exact Nat.le_of_succ_le (preorderFields_depth_le fs (d + 1) p hp)
theorem preorderFields_depth_le :
    ∀ (fs : List Node) (d : Nat) (p : Nat × Node), p ∈ preorderFields d fs → d ≤ p.1
  | [], _, p, hp => by simp [preorderFields] at hp
  | f :: rest, d, p, hp => by
    simp only [preorderFields, List.mem_append] at hp
    rcases hp with hp | hp
    · exact preorder_depth_le f d p hp
    · exact preorderFields_depth_le rest d p hp
end

theorem expectedLine_deep (l : List (Nat × Node)) (h : ∀ p ∈ l, 12 ≤ p.1) :
    l.filterMap expectedLine = [] := by
  rw [List.filterMap_eq_nil_iff]
  intro p hp
  have := h p hp
  simp only [expectedLine]
  rw [if_neg (by omega), if_neg (by omega)]

mutual
theorem printSchemaNode_preorder : ∀ (n : Node) (d : Nat), d ≤ 11 →
    printSchemaNode n (spaces (2 * d)) (d : Int) = (preorder d n).filterMap expectedLine
  | .mk leaf ty opt rep nm fs, d, hd => by
    by_cases h10 : d ≤ 10
    · have hnot : ¬ ((d : Int) > 10) := by omega
      simp only [printSchemaNode, if_neg hnot, preorder, List.filterMap_cons, expectedLine,
        if_pos h10, line_assoc, Node.label]
      congr 1
      cases leaf with
      | true => simp
      | false =>
        simp only [Bool.not_false, if_true, Bool.false_eq_true, if_false]
        exact printSchemaFields_preorder fs d h10
    · have h11 : d = 11 := by omega
      subst h11
      simp only [printSchemaNode, preorder, List.filterMap_cons, expectedLine]
      simp only [show ((11 : Nat) : Int) > 10 from by decide, if_true,
        show ¬ (11 ≤ 10) from by decide, if_false]
      congr 1
      symm
      apply expectedLine_deep
      intro p hp
      cases leaf with
      | true => simp at hp
      | false =>
        simp only [Bool.false_eq_true, if_false] at hp
        exact preorderFields_depth_le fs 12 p hp
theorem printSchemaFields_preorder : ∀ (fs : List Node) (d : Nat), d ≤ 10 →
    printSchemaFields fs (spaces (2 * d)) (d : Int)
      = (preorderFields (d + 1) fs).filterMap expectedLine
  | [], _, _ => by simp [printSchemaFields, preorderFields]
  | f :: rest, d, hd => by
    simp only [printSchemaFields, preorderFields, List.filterMap_append, spaces_succ]
    have h1 := printSchemaNode_preorder f (d + 1) (by omega)
    have h2 := printSchemaFields_preorder rest d hd
    rw [← h2, ← h1]
    simp
end

mutual
theorem preorder_depth_le_height :
    ∀ (n : Node) (d : Nat) (p : Nat × Node), p ∈ preorder d n → p.1 ≤ d + height n
  | .mk leaf ty opt rep nm fs, d, p, hp => by
    simp only [preorder, List.mem_cons] at hp
    rcases hp with rfl | hp
    · exact Nat.le_add_right _ _
    · cases leaf with
      | true => simp at hp
      | false =>
        simp only [Bool.false_eq_true, if_false] at hp
        have := preorderFields_depth_le_height fs (d + 1) p hp
        simp only [height, Bool.false_eq_true, if_false]
        omega
theorem preorderFields_depth_le_height :
    ∀ (fs : List Node) (d : Nat) (p : Nat × Node),
      p ∈ preorderFields d fs → p.1 + 1 ≤ d + heightFields fs
  | [], _, p, hp => by simp [preorderFields] at hp
  | f :: rest, d, p, hp => by
    simp only [preorderFields, List.mem_append] at hp
    simp only [heightFields]
    rcases hp with hp | hp
    · have := preorder_depth_le_height f d p hp
      omega
    · have := preorderFields_depth_le_height rest d p hp
      omega
end

theorem expectedLine_shallow (l : List (Nat × Node)) (h : ∀ p ∈ l, p.1 ≤ 10) :
    l.filterMap expectedLine = l.map (fun p => spaces (2 * p.1) ++ p.2.label) := by
  induction l with
  | nil => rfl
  | cons a l ih =>
    have ha : a.1 ≤ 10 := h a (List.mem_cons_self _ _)
    have hl : ∀ p ∈ l, p.1 ≤ 10 := fun p hp => h p (List.mem_cons_of_mem _ hp)
    simp only [List.filterMap_cons, List.map_cons, expectedLine, if_pos ha, ih hl]

/-- C8: `printSchemaNode root "" 0` is total and its output is the depth-first
pre-order enumeration of the tree (children in field order) in which a node at
depth `d <= 10` gives one line indented by `2*d` spaces, a node at depth 11 gives
the single line `... (max depth reached)`, and deeper nodes give nothing; when
the tree has height at most 10 this is exactly one line per node. -/
theorem printSchemaNode_is_bounded_preorder (root : Node) :
    printSchemaNode root "" 0 = (preorder 0 root).filterMap expectedLine ∧
    (height root ≤ 10 →
      printSchemaNode root "" 0
        = (preorder 0 root).map (fun p => spaces (2 * p.1) ++ p.2.label)) := by
  have h : printSchemaNode root "" 0 = (preorder 0 root).filterMap expectedLine :=
    printSchemaNode_preorder root 0 (by decide)
  refine ⟨h, fun hh => ?_⟩
  rw [h]
  apply expectedLine_shallow
  intro p hp
  have := preorder_depth_le_height root 0 p hp
  omega

theorem printSchemaNode_is_bounded_preorder_witness :
    height sampleSchema ≤ 10 ∧
    printSchemaNode sampleSchema "" 0
      = (preorder 0 sampleSchema).map (fun p => spaces (2 * p.1) ++ p.2.label) :=
  ⟨by decide, (printSchemaNode_is_bounded_preorder sampleSchema).2 (by decide)⟩

theorem printSchemaNode_head (node : Node) (indent : String) (depth : Int) (h : depth ≤ 10) :
    (printSchemaNode node indent depth).head?
      = some (indent ++ repetition node ++ " " ++ nodeType node ++ " " ++ nodeName node) := by
  cases node with
  | mk leaf ty opt rep nm fs =>
    have hnot : ¬ (depth > 10) := by omega
    simp only [printSchemaNode, if_neg hnot, List.head?_cons]

/-- C6 (as amended): whenever `printSchemaNode` prints a node (depth at most 10),
its line carries exactly one repetition kind: OPTIONAL when `Optional()` holds,
REPEATED when it does not and `Repeated()` holds, REQUIRED otherwise; the printed
name is the field's own name for a named field and `(root)` otherwise, so it is
`(root)` exactly when the node is not a named field or is a field named `(root)`. -/
theorem printSchemaNode_repetition_and_name (node : Node) (indent : String) (depth : Int)
    (h : depth ≤ 10) :
    ∃ (r : Repetition) (name : String),
      (printSchemaNode node indent depth).head?
        = some (indent ++ r.label ++ " " ++ nodeType node ++ " " ++ name) ∧
      (r = .OPTIONAL ↔ node.Optional = true) ∧
      (r = .REPEATED ↔ (node.Optional = false ∧ node.Repeated = true)) ∧
      (r = .REQUIRED ↔ (node.Optional = false ∧ node.Repeated = false)) ∧
      (∀ f, node.asField = some f → name = f) ∧
      (node.asField = none → name = "(root)") ∧
      (name = "(root)" ↔ (node.asField = none ∨ node.asField = some "(root)")) := by
  have hname : (∀ f, node.asField = some f → nodeName node = f) ∧
      (node.asField = none → nodeName node = "(root)") ∧
      (nodeName node = "(root)" ↔ (node.asField = none ∨ node.asField = some "(root)")) := by
    unfold nodeName
    cases node.asField with
    | none => simp
    | some f => simp
  have hhead := printSchemaNode_head node indent depth h
  cases hopt : node.Optional with
  | true =>
    refine ⟨.OPTIONAL, nodeName node, ?_, by simp, by simp, by simp, hname⟩
    simpa [repetition, hopt, Repetition.label] using hhead
  | false =>
    cases hrep : node.Repeated with
    | true =>
      refine ⟨.REPEATED, nodeName node, ?_, by simp, by simp, by simp, hname⟩
      simpa [repetition, hopt, hrep, Repetition.label] using hhead
    | false =>
      refine ⟨.REQUIRED, nodeName node, ?_, by simp, by simp, by simp, hname⟩
      simpa [repetition, hopt, hrep, Repetition.label] using hhead

theorem printSchemaNode_repetition_and_name_witness :
    (0 : Int) ≤ 10 ∧
    ∃ (r : Repetition) (name : String),
      (printSchemaNode sampleSchema "" 0).head?
        = some ("" ++ r.label ++ " " ++ nodeType sampleSchema ++ " " ++ name) ∧
      (r = .OPTIONAL ↔ sampleSchema.Optional = true) ∧
      (r = .REPEATED ↔ (sampleSchema.Optional = false ∧ sampleSchema.Repeated = true)) ∧
      (r = .REQUIRED ↔ (sampleSchema.Optional = false ∧ sampleSchema.Repeated = false)) ∧
      (∀ f, sampleSchema.asField = some f → name = f) ∧
      (sampleSchema.asField = none → name = "(root)") ∧
      (name = "(root)" ↔ (sampleSchema.asField = none ∨ sampleSchema.asField = some "(root)")) :=
  ⟨by decide, printSchemaNode_repetition_and_name sampleSchema "" 0 (by decide)⟩

/-- C6 fails as stated: a named field whose name is `(root)` prints the name
`(root)` although it is a named field, and a node met at depth 11 gets no
repetition label at all, only the cut-off marker. -/
theorem printSchemaNode_root_name_not_exact :
    fieldNamedRoot.asField = some "(root)" ∧
    nodeName fieldNamedRoot = "(root)" ∧
    printSchemaNode fieldNamedRoot "" 0 = ["REQUIRED INT64 (root)"] ∧
    printSchemaNode fieldNamedRoot "" 11 = ["... (max depth reached)"] := by
  decide

theorem formatColumnPathLoop_intercalate (i : Nat) (acc : String) (path : List String) :
    formatColumnPathLoop (i + 1) acc path = String.intercalate.go acc "." path := by
  induction path generalizing i acc with
  | nil => simp [formatColumnPathLoop, String.intercalate.go]
  | cons a rest ih =>
    simp only [formatColumnPathLoop, String.intercalate.go, Nat.succ_pos, gt_iff_lt, if_true]
    exact ih (i + 1) (acc ++ "." ++ a)

theorem formatColumnPath_eq_intercalate (path : List String) :
    formatColumnPath path = ".".intercalate path := by
  cases path with
  | nil => rfl
  | cons a rest =>
    simp only [formatColumnPath, formatColumnPathLoop, String.intercalate, gt_iff_lt,
      Nat.lt_irrefl, if_false, String.empty_append]
    exact formatColumnPathLoop_intercalate 0 a rest

theorem formatColumnPathLoop_data (i : Nat) (acc : String) (path : List String) :
    (formatColumnPathLoop (i + 1) acc path).data = acc.data ++ dotted path := by
  induction path generalizing i acc with
  | nil => simp [formatColumnPathLoop, dotted]
  | cons a rest ih =>
    simp only [formatColumnPathLoop, Nat.succ_pos, gt_iff_lt, if_true, dotted]
    rw [ih (i + 1)]
    simp [String.data_append]

theorem formatColumnPath_cons_data (a : String) (rest : List String) :
    (formatColumnPath (a :: rest)).data = a.data ++ dotted rest := by
  simp only [formatColumnPath, formatColumnPathLoop, gt_iff_lt, Nat.lt_irrefl, if_false,
    String.empty_append]
  exact formatColumnPathLoop_data 0 a rest

/-- Two dot-free runs followed by tails that are empty or start with a dot
agree piecewise when the concatenations agree. -/
theorem split_at_dot (x y u v : List Char) (hx : '.' ∉ x) (hy : '.' ∉ y)
    (hu : u = [] ∨ ∃ t, u = '.' :: t) (hv : v = [] ∨ ∃ t, v = '.' :: t)
    (h : x ++ u = y ++ v) : x = y ∧ u = v := by
  induction x generalizing y with
  | nil =>
    cases y with
    | nil => exact ⟨rfl, by simpa using h⟩
    | cons b y =>
      exfalso
      rcases hu with rfl | ⟨t, rfl⟩
      · simp at h
      · simp only [List.nil_append, List.cons_append, List.cons.injEq] at h
        exact hy (by rw [← h.1]; exact List.mem_cons_self _ _)
  | cons a x ih =>
    cases y with
    | nil =>
      exfalso
      rcases hv with rfl | ⟨t, rfl⟩
      · simp at h
      · simp only [List.nil_append, List.cons_append, List.cons.injEq] at h
        exact hx (by rw [h.1]; exact List.mem_cons_self _ _)
    | cons b y =>
      simp only [List.cons_append, List.cons.injEq] at h
      have hx2 : '.' ∉ x := fun hm => hx (List.mem_cons_of_mem _ hm)
      have hy2 : '.' ∉ y := fun hm => hy (List.mem_cons_of_mem _ hm)
      obtain ⟨h1, h2⟩ := ih y hx2 hy2 h.2
      exact ⟨by rw [h.1, h1], h2⟩

theorem dotted_shape (l : List String) : dotted l = [] ∨ ∃ t, dotted l = '.' :: t := by
  cases l with
  | nil => exact Or.inl rfl
  | cons a rest => exact Or.inr ⟨_, rfl⟩

theorem dotted_injective (p q : List String)
    (hp : ∀ s ∈ p, '.' ∉ s.data) (hq : ∀ s ∈ q, '.' ∉ s.data)
    (h : dotted p = dotted q) : p = q := by
  induction p generalizing q with
  | nil =>
    cases q with
    | nil => rfl
    | cons b q => simp [dotted] at h
  | cons a p ih =>
    cases q with
    | nil => simp [dotted] at h
    | cons b q =>
      simp only [dotted, List.cons.injEq, true_and] at h
      have ha := hp a (List.mem_cons_self _ _)
      have hb := hq b (List.mem_cons_self _ _)
      obtain ⟨h1, h2⟩ := split_at_dot a.data b.data _ _ ha hb (dotted_shape p) (dotted_shape q) h
      have hab : a = b := String.ext h1
      have := ih q (fun s hs => hp s (List.mem_cons_of_mem _ hs))
        (fun s hs => hq s (List.mem_cons_of_mem _ hs)) h2
      rw [hab, this]

/-- C9: `formatColumnPath` joins the names in order with `.` between them, and on
column paths whose names are all non-empty and free of `.` it is injective. -/
theorem formatColumnPath_unique :
    (∀ path : List String, formatColumnPath path = ".".intercalate path) ∧
    (∀ p q : List String,
      (∀ s ∈ p, s ≠ "" ∧ '.' ∉ s.data) → (∀ s ∈ q, s ≠ "" ∧ '.' ∉ s.data) →
      formatColumnPath p = formatColumnPath q → p = q) := by
  refine ⟨formatColumnPath_eq_intercalate, ?_⟩
  intro p q hp hq h
  have hd := congrArg String.data h
  cases p with
  | nil =>
    cases q with
    | nil => rfl
    | cons b q =>
      exfalso
      rw [formatColumnPath_cons_data] at hd
      have hb : b.data = [] := by
        have : ([] : List Char) = b.data ++ dotted q := hd
        exact (List.append_eq_nil.mp this.symm).1
      exact (hq b (List.mem_cons_self _ _)).1 (String.ext hb)
  | cons a p =>
    cases q with
    | nil =>
      exfalso
      rw [formatColumnPath_cons_data] at hd
      have ha : a.data = [] := by
        have : a.data ++ dotted p = ([] : List Char) := hd
        exact (List.append_eq_nil.mp this).1
      exact (hp a (List.mem_cons_self _ _)).1 (String.ext ha)
    | cons b q =>
      rw [formatColumnPath_cons_data, formatColumnPath_cons_data] at hd
      obtain ⟨h1, h2⟩ := split_at_dot a.data b.data _ _
        (hp a (List.mem_cons_self _ _)).2 (hq b (List.mem_cons_self _ _)).2
        (dotted_shape p) (dotted_shape q) hd
      have hab : a = b := String.ext h1
      have := dotted_injective p q
        (fun s hs => (hp s (List.mem_cons_of_mem _ hs)).2)
        (fun s hs => (hq s (List.mem_cons_of_mem _ hs)).2) h2
      rw [hab, this]

theorem formatColumnPath_unique_witness :
    formatColumnPath ["address", "city"] = ".".intercalate ["address", "city"] ∧
    ((∀ s ∈ ["address", "city"], s ≠ "" ∧ '.' ∉ s.data) ∧
      formatColumnPath ["address", "city"] = formatColumnPath ["address", "city"]) ∧
    ["address", "city"] = ["address", "city"] :=
  ⟨formatColumnPath_unique.1 _,
   ⟨by decide, rfl⟩,
   formatColumnPath_unique.2 ["address", "city"] ["address", "city"]
     (by decide) (by decide) rfl⟩

/-- Without the restriction on the names the joined text does not determine the
path: a name containing a dot collides with a two-name path. -/
theorem formatColumnPath_collision :
    formatColumnPath ["a.b"] = formatColumnPath ["a", "b"] ∧
    formatColumnPath [] = formatColumnPath [""] := by
  decide

/-- A chain of nested groups thirteen levels deep: lines for depths 0 to 10, then
the cut-off marker for the node at depth 11 and nothing for the one below it. -/
theorem printSchemaNode_deep_chain :
    printSchemaNode (deepChain 12) "" 0 =
      (List.range 11).map (fun d => spaces (2 * d) ++
        (if d = 0 then "REQUIRED GROUP (root)" else "REQUIRED GROUP level"))
        ++ [spaces 22 ++ "... (max depth reached)"] := by
  decide

/-! ## Theorems: cmd/generate.go -/

theorem wrapInt_of_range (x : Int) (h0 : -(2 ^ 63) ≤ x) (h1 : x < 2 ^ 63) : wrapInt x = x := by
  unfold wrapInt
  omega

theorem wrapInt_of_overflow (x : Int) (h0 : 2 ^ 63 ≤ x) (h1 : x < 2 ^ 64) :
    wrapInt x = x - 2 ^ 64 := by
  unfold wrapInt
  omega

theorem idsFrom_append (first : Int) (a b : Nat) :
    idsFrom first a ++ idsFrom (first + (a : Int)) b = idsFrom first (a + b) := by
  unfold idsFrom
  rw [List.range_add, List.map_append, List.map_map]
  congr 1
  apply List.map_congr_left
  intro j _
  simp only [Function.comp, Nat.cast_add]
  omega

theorem makeBatch_length {ρ : Type} (draw : Int → ρ) (i : Int) (remaining : Nat) :
    (makeBatch draw i remaining).length = remaining := by
  simp [makeBatch]

theorem makeBatch_ids {ρ : Type} (draw : Int → ρ) (i : Int) (remaining : Nat)
    (h0 : 0 ≤ i) (h1 : i + (remaining : Int) < 2 ^ 63) :
    (makeBatch draw i remaining).map User.ID = idsFrom i remaining := by
  unfold makeBatch idsFrom
  rw [List.map_map]
  apply List.map_congr_left
  intro j hj
  have hjlt : j < remaining := List.mem_range.mp hj
  simp only [Function.comp]
  rw [wrapInt_of_range (i + (j : Int)) (by omega) (by omega),
    wrapInt_of_range (i + (j : Int) + 1) (by omega) (by omega)]

theorem writtenBatches_cons_write {ρ : Type} (batch : List (User ρ))
    (progress later : List (GenEvent ρ))
    (hprogress : progress = [] ∨ ∃ a b, progress = [.generated a b]) :
    writtenBatches (.write batch none :: progress ++ later) = batch :: writtenBatches later := by
  rcases hprogress with rfl | ⟨a, b, rfl⟩ <;> rfl

/-- Loop invariant of the batch loop: entered with a counter `i` in `[0, 2^63)`
and enough fuel, the loop ends; every batch written has between 1 and 1000
users; the IDs written are `i+1, ..., i+m` in order for some `m` with
`i + m <= numRows`; and `m` reaches `numRows - i` when the loop ends with
`return nil` or when no `Write` call fails. It ends with `return nil` when no
`Write` call fails and `i += batchSize` cannot overflow. -/
theorem generateLoop_spec {ρ : Type} (numRows : Int) (draw : Int → ρ)
    (writeErr : Nat → Option GoError) (hrows : numRows < 2 ^ 63) :
    ∀ (fuel : Nat) (i : Int) (k : Nat), 0 ≤ i → i < 2 ^ 63 →
      ((numRows - i).toNat + 999) / 1000 + 1 ≤ fuel →
      ∃ events outcome m,
        generateLoop numRows draw writeErr fuel i k = some (events, outcome) ∧
        (∀ b ∈ writtenBatches events, 1 ≤ b.length ∧ b.length ≤ 1000) ∧
        m ≤ (numRows - i).toNat ∧
        (writtenBatches events).flatten.map User.ID = idsFrom i m ∧
        (outcome = .nil → m = (numRows - i).toNat) ∧
        ((∀ k, writeErr k = none) → m = (numRows - i).toNat) ∧
        ((∀ k, writeErr k = none) → numRows + 1000 < 2 ^ 63 → outcome = .nil) := by
  intro fuel
  induction fuel with
  | zero =>
    intro i k _ _ hfuel
    omega
  | succ fuel ih =>
    intro i k hi0 hi1 hfuel
    have hb : batchSize = 1000 := rfl
    rw [generateLoop]
    by_cases hlt : i < numRows
    · simp only [if_pos hlt]
      have hrem : wrapInt (numRows - i) = numRows - i :=
        wrapInt_of_range _ (by omega) (by omega)
      rw [hrem]
      cases hw : writeErr k with
      | some err =>
        -- the `Write` call fails: nothing more is written
        have hnofail : ¬ (∀ k, writeErr k = none) := fun h => by
          rw [h k] at hw
          exact Option.noConfusion hw
        by_cases hbig : numRows - i > batchSize
        · simp only [if_pos hbig]
          have hnotneg : ¬ (batchSize < 0) := by rw [hb]; omega
          simp only [if_neg hnotneg]
          exact ⟨_, _, 0, rfl, by intro b hbm; simp [writtenBatches] at hbm, by omega, rfl,
            fun h => Outcome.noConfusion h, fun h => absurd h hnofail,
            fun h => absurd h hnofail⟩
        · simp only [if_neg hbig]
          have hnotneg : ¬ (numRows - i < 0) := by omega
          simp only [if_neg hnotneg]
          exact ⟨_, _, 0, rfl, by intro b hbm; simp [writtenBatches] at hbm, by omega, rfl,
            fun h => Outcome.noConfusion h, fun h => absurd h hnofail,
            fun h => absurd h hnofail⟩
      | none =>
        by_cases hbig : numRows - i > batchSize
        · -- a full batch of 1000 users; the counter cannot overflow
          simp only [if_pos hbig]
          have hnext : wrapInt (i + batchSize) = i + 1000 := by
            rw [hb]
            exact wrapInt_of_range _ (by omega) (by omega)
          rw [hnext]
          have hnotneg : ¬ (batchSize < 0) := by rw [hb]; omega
          simp only [if_neg hnotneg]
          obtain ⟨later, outcome, m, hloop, hsizes, hm, hids, hdone, hall, hnil⟩ :=
            ih (i + 1000) (k + 1) (by omega) (by omega) (by rw [hb] at hbig; omega)
          rw [hloop]
          rw [hb] at hbig
          refine ⟨_, outcome, 1000 + m, rfl, ?_, by omega, ?_, ?_, ?_, hnil⟩
          · rw [writtenBatches_cons_write _ _ _ (by split <;> simp)]
            intro b hbmem
            rcases List.mem_cons.mp hbmem with hfirst | hbmem
            · rw [hfirst, makeBatch_length, hb]
              omega
            · exact hsizes b hbmem
          · rw [writtenBatches_cons_write _ _ _ (by split <;> simp)]
            rw [List.flatten_cons, List.map_append, hids, hb,
              makeBatch_ids draw i _ hi0 (by simp; omega)]
            have hthousand : (1000 : Int).toNat = 1000 := by omega
            rw [hthousand, ← idsFrom_append]
            rfl
          · intro h
            have := hdone h
            omega
          · intro h
            have := hall h
            omega
        · -- the last batch, of `numRows - i` users
          simp only [if_neg hbig]
          have hnotneg : ¬ (numRows - i < 0) := by omega
          simp only [if_neg hnotneg]
          rw [hb] at hbig
          have hlastIds : (makeBatch draw i (numRows - i).toNat).map User.ID
              = idsFrom i (numRows - i).toNat :=
            makeBatch_ids draw i _ hi0 (by omega)
          have hlastLen : 1 ≤ (makeBatch draw i (numRows - i).toNat).length ∧
              (makeBatch draw i (numRows - i).toNat).length ≤ 1000 := by
            rw [makeBatch_length]
            omega
          by_cases hover : i + 1000 < 2 ^ 63
          · have hnext : wrapInt (i + batchSize) = i + 1000 := by
              rw [hb]
              exact wrapInt_of_range _ (by omega) (by omega)
            rw [hnext]
            obtain ⟨later, outcome, m, hloop, hsizes, hm, hids, _, _, hnil⟩ :=
              ih (i + 1000) (k + 1) (by omega) (by omega) (by omega)
            have hzero : m = 0 := by omega
            rw [hzero] at hids
            have hnone : (writtenBatches later).flatten = [] := by
              have := congrArg List.length hids
              simp only [List.length_map, idsFrom, List.range_zero, List.map_nil,
                List.length_nil] at this
              exact List.length_eq_zero.mp this
            rw [hloop]
            refine ⟨_, outcome, (numRows - i).toNat, rfl, ?_, Nat.le_refl _, ?_,
              fun _ => rfl, fun _ => rfl, hnil⟩
            · rw [writtenBatches_cons_write _ _ _ (by split <;> simp)]
              intro b hbmem
              rcases List.mem_cons.mp hbmem with hfirst | hbmem
              · rw [hfirst]
                exact hlastLen
              · exact hsizes b hbmem
            · rw [writtenBatches_cons_write _ _ _ (by split <;> simp)]
              rw [List.flatten_cons, hnone, List.append_nil, hlastIds]
          · -- `i += batchSize` overflows: the next iteration panics in `make`
            have hnext : wrapInt (i + batchSize) = i + 1000 - 2 ^ 64 := by
              rw [hb]
              exact wrapInt_of_overflow _ (by omega) (by omega)
            rw [hnext]
            obtain ⟨fuel, rfl⟩ : ∃ f, fuel = f + 1 := ⟨fuel - 1, by omega⟩
            have hpanic :
                generateLoop numRows draw writeErr (fuel + 1) (i + 1000 - 2 ^ 64) (k + 1)
                  = some ([], .panic "runtime error: makeslice: len out of range") := by
              rw [generateLoop]
              have hlt2 : i + 1000 - 2 ^ 64 < numRows := by omega
              have hrem2 : wrapInt (numRows - (i + 1000 - 2 ^ 64)) = numRows - i - 1000 := by
                unfold wrapInt
                omega
              simp only [if_pos hlt2, hrem2, hb]
              have hsmall : ¬ (numRows - i - 1000 > 1000) := by omega
              have hneg : numRows - i - 1000 < 0 := by omega
              simp only [if_neg hsmall, if_pos hneg]
            rw [hpanic]
            refine ⟨_, _, (numRows - i).toNat, rfl, ?_, Nat.le_refl _, ?_,
              fun _ => rfl, fun _ => rfl, ?_⟩
            · rw [writtenBatches_cons_write _ _ _ (by split <;> simp)]
              intro b hbmem
              rcases List.mem_cons.mp hbmem with hfirst | hbmem
              · rw [hfirst]
                exact hlastLen
              · simp [writtenBatches] at hbmem
            · rw [writtenBatches_cons_write _ _ _ (by split <;> simp)]
              simp [writtenBatches, hlastIds]
            · intro _ hsafe
              omega
    · simp only [if_neg hlt]
      have hzero : (numRows - i).toNat = 0 := by omega
      refine ⟨[], .nil, 0, rfl, ?_, by omega, rfl, fun _ => hzero.symm, fun _ => hzero.symm,
        fun _ _ => rfl⟩
      intro b hbmem
      simp [writtenBatches] at hbmem

theorem writtenBatches_framed {ρ : Type} (first : GenEvent ρ) (shown closing : List (GenEvent ρ))
    (hfirst : writtenBatches [first] = []) (hclosing : writtenBatches closing = []) :
    writtenBatches (first :: shown ++ closing) = writtenBatches shown := by
  have h : first :: shown ++ closing = [first] ++ shown ++ closing := rfl
  rw [h]
  unfold writtenBatches at hfirst hclosing ⊢
  rw [List.filterMap_append, List.filterMap_append, hfirst, hclosing]
  simp

theorem idsFrom_zero (count : Nat) :
    idsFrom 0 count = (List.range count).map (fun (j : Nat) => (j : Int) + 1) := by
  unfold idsFrom
  apply List.map_congr_left
  intro j _
  omega

/-- C7 (as amended): for every `numRows` from 0 up to the largest `int`, the run
of `generateSampleData` ends; every batch written holds between 1 and 1000
users and the user IDs written, in write order, are 1, 2, ..., `m` for some
`m <= numRows`, with no gap or repeat; when `os.Create` and every `Write` call
succeed, and whenever the run returns nil, the batch sizes sum to exactly
`numRows` and the IDs are exactly 1, ..., `numRows`; a run that returns nil ends
with the success message for `numRows` users. -/
theorem generateSampleData_partitions_rows {ρ : Type} (numRows rowGroupSize : Int)
    (outputFile : String) (createErr : Option GoError) (draw : Int → ρ)
    (writeErr : Nat → Option GoError) (h0 : 0 ≤ numRows) (h1 : numRows < 2 ^ 63) :
    ∃ events outcome m,
      generateSampleData numRows rowGroupSize outputFile createErr draw writeErr
        = some (events, outcome) ∧
      (∀ b ∈ writtenBatches events, 1 ≤ b.length ∧ b.length ≤ 1000) ∧
      m ≤ numRows.toNat ∧
      ((writtenBatches events).map List.length).sum = m ∧
      (writtenBatches events).flatten.map User.ID
        = (List.range m).map (fun (j : Nat) => (j : Int) + 1) ∧
      (outcome = .nil →
        m = numRows.toNat ∧ events.getLast? = some (.success outputFile numRows)) ∧
      (createErr = none → (∀ k, writeErr k = none) →
        m = numRows.toNat ∧ (numRows + 1000 < 2 ^ 63 → outcome = .nil)) := by
  cases createErr with
  | some err =>
    refine ⟨[], .error (.wrap "failed to create output file: " err), 0, rfl, ?_, by omega,
      rfl, rfl, fun h => Outcome.noConfusion h, fun h => Option.noConfusion h⟩
    intro b hbmem
    simp [writtenBatches] at hbmem
  | none =>
    obtain ⟨shown, outcome, m, hloop, hsizes, hm, hids, hdone, hall, hnil⟩ :=
      generateLoop_spec numRows draw writeErr h1 (numRows.toNat / 1000 + 2) 0 0
        (by omega) (by omega) (by omega)
    rw [Int.sub_zero] at hm hdone hall
    rw [idsFrom_zero] at hids
    have hsum : ((writtenBatches shown).map List.length).sum = m := by
      rw [← List.length_flatten]
      have := congrArg List.length hids
      rw [List.length_map, List.length_map, List.length_range] at this
      exact this
    unfold generateSampleData
    simp only [hloop]
    cases outcome with
    | nil =>
      have hframe : writtenBatches (GenEvent.generating numRows rowGroupSize :: shown
          ++ [GenEvent.success outputFile numRows]) = writtenBatches shown :=
        writtenBatches_framed (GenEvent.generating numRows rowGroupSize) shown
          [GenEvent.success outputFile numRows] rfl rfl
      refine ⟨_, _, m, rfl, ?_, hm, ?_, ?_, ?_, ?_⟩
      · rw [hframe]; exact hsizes
      · rw [hframe]; exact hsum
      · rw [hframe]; exact hids
      · intro h
        exact ⟨hdone h, List.getLast?_concat _⟩
      · intro _ hw
        exact ⟨hall hw, fun _ => rfl⟩
    | error err =>
      have hframe : writtenBatches (GenEvent.generating numRows rowGroupSize :: shown)
          = writtenBatches shown := by
        have := writtenBatches_framed (GenEvent.generating numRows rowGroupSize) shown [] rfl rfl
        simpa using this
      refine ⟨_, _, m, rfl, ?_, hm, ?_, ?_, fun h => Outcome.noConfusion h, ?_⟩
      · rw [hframe]; exact hsizes
      · rw [hframe]; exact hsum
      · rw [hframe]; exact hids
      · intro _ hw
        exact ⟨hall hw, hnil hw⟩
    | panic message =>
      have hframe : writtenBatches (GenEvent.generating numRows rowGroupSize :: shown)
          = writtenBatches shown := by
        have := writtenBatches_framed (GenEvent.generating numRows rowGroupSize) shown [] rfl rfl
        simpa using this
      refine ⟨_, _, m, rfl, ?_, hm, ?_, ?_, fun h => Outcome.noConfusion h, ?_⟩
      · rw [hframe]; exact hsizes
      · rw [hframe]; exact hsum
      · rw [hframe]; exact hids
      · intro _ hw
        exact ⟨hall hw, hnil hw⟩

theorem generateSampleData_partitions_rows_witness :
    (0 : Int) ≤ 2500 ∧ (2500 : Int) < 2 ^ 63 ∧
    ∃ events outcome m,
      generateSampleData 2500 5000 "sample.parquet" none (fun _ => ()) (fun _ => none)
        = some (events, outcome) ∧
      (∀ b ∈ writtenBatches events, 1 ≤ b.length ∧ b.length ≤ 1000) ∧
      m ≤ (2500 : Int).toNat ∧
      ((writtenBatches events).map List.length).sum = m ∧
      (writtenBatches events).flatten.map User.ID
        = (List.range m).map (fun (j : Nat) => (j : Int) + 1) ∧
      (outcome = .nil →
        m = (2500 : Int).toNat ∧ events.getLast? = some (.success "sample.parquet" 2500)) ∧
      ((none : Option GoError) = none → (∀ k : Nat, (fun _ => (none : Option GoError)) k = none) →
        m = (2500 : Int).toNat ∧ ((2500 : Int) + 1000 < 2 ^ 63 → outcome = .nil)) :=
  ⟨by decide, by decide,
   generateSampleData_partitions_rows 2500 5000 "sample.parquet" none (fun _ => ())
     (fun _ => none) (by decide) (by decide)⟩

/-- C7 fails as stated when a `Write` call fails: asked for 3 rows with a writer
whose first `Write` returns an error, `generateSampleData` returns that error
wrapped, nothing has been written, and so the batch sizes do not sum to 3. -/
theorem generateSampleData_write_failure :
    (generateSampleData 3 5000 "sample.parquet" none (fun _ => ())
        (fun _ => some (.other "no space left on device"))).map
        (fun r => (((writtenBatches r.1).map List.length).sum, r.2))
      = some (0, .error (.wrap "failed to write batch: " (.other "no space left on device"))) ∧
    ¬ ∃ events outcome,
        generateSampleData 3 5000 "sample.parquet" none (fun _ => ())
          (fun _ => some (.other "no space left on device")) = some (events, outcome) ∧
        ((writtenBatches events).map List.length).sum = 3 := by
  have key : (generateSampleData 3 5000 "sample.parquet" none (fun _ => ())
        (fun _ => some (.other "no space left on device"))).map
        (fun r => (((writtenBatches r.1).map List.length).sum, r.2))
      = some (0, .error (.wrap "failed to write batch: " (.other "no space left on device"))) := by
    decide
  refine ⟨key, ?_⟩
  rintro ⟨events, outcome, hrun, hsum⟩
  rw [hrun] at key
  simp only [Option.map_some', Option.some.injEq, Prod.mk.injEq] at key
  omega

set_option maxRecDepth 100000 in
/-- A later failure: the second `Write` of a 2500-row run fails after one batch
of 1000 users was written. -/
theorem generateSampleData_second_write_failure :
    (generateSampleData 2500 5000 "sample.parquet" none (fun _ => ())
        (fun k => if k = 1 then some (.other "no space left on device") else none)).map
        (fun r => ((writtenBatches r.1).map List.length, r.2))
      = some ([1000],
          .error (.wrap "failed to write batch: " (.other "no space left on device"))) := by
  decide

set_option maxRecDepth 100000 in
/-- Batch sizes on a concrete run of 2500 rows. -/
theorem generateSampleData_sample_sizes :
    (generateSampleData 2500 5000 "sample.parquet" none (fun _ => ()) (fun _ => none)).map
        (fun r => ((writtenBatches r.1).map List.length, r.2))
      = some ([1000, 1000, 500], .nil) := by
  decide

/-- The IDs and names written on a concrete run of 3 rows. -/
theorem generateSampleData_sample_ids :
    (generateSampleData 3 5000 "sample.parquet" none (fun _ => ()) (fun _ => none)).map
        (fun r => ((writtenBatches r.1).map (fun b => b.map (fun u => (u.ID, u.Name))), r.2))
      = some ([[(1, "User_1"), (2, "User_2"), (3, "User_3")]], .nil) := by
  decide

set_option maxRecDepth 100000 in
/-- Near the largest `int` the counter update `i += batchSize` wraps around: the
last batch is written, and the next iteration panics in `make`. -/
theorem generateLoop_counter_overflow :
    (generateLoop (2 ^ 63 - 1) (fun _ => ()) (fun _ => none) 3 9223372036854775000 0).map
        (fun r => ((writtenBatches r.1).map List.length, r.2))
      = some ([807], .panic "runtime error: makeslice: len out of range") := by
  decide

/-- The fuel given to the batch loop is always enough, whatever the `Write`
calls return: the loop ends for every counter in `[0, 2^63)`. -/
theorem generateLoop_ends {ρ : Type} (numRows : Int) (draw : Int → ρ)
    (writeErr : Nat → Option GoError) (hrows : numRows < 2 ^ 63) :
    ∀ (fuel : Nat) (i : Int) (k : Nat), 0 ≤ i → i < 2 ^ 63 →
      ((numRows - i).toNat + 999) / 1000 + 1 ≤ fuel →
      ∃ result, generateLoop numRows draw writeErr fuel i k = some result := by
  intro fuel
  induction fuel with
  | zero =>
    intro i k _ _ hfuel
    omega
  | succ fuel ih =>
    intro i k hi0 hi1 hfuel
    rw [generateLoop]
    have hb : batchSize = 1000 := rfl
    by_cases hlt : i < numRows
    · simp only [if_pos hlt]
      generalize (if wrapInt (numRows - i) > batchSize then batchSize
        else wrapInt (numRows - i)) = remaining
      by_cases hneg : remaining < 0
      · simp only [if_pos hneg]
        exact ⟨_, rfl⟩
      · simp only [if_neg hneg]
        cases hw : writeErr k with
        | some err => exact ⟨_, rfl⟩
        | none =>
          simp only []
          by_cases hover : i + 1000 < 2 ^ 63
          · have hnext : wrapInt (i + batchSize) = i + 1000 := by
              rw [hb]
              exact wrapInt_of_range _ (by omega) (by omega)
            rw [hnext]
            obtain ⟨⟨later, outcome⟩, hloop⟩ :=
              ih (i + 1000) (k + 1) (by omega) (by omega) (by omega)
            rw [hloop]
            exact ⟨_, rfl⟩
          · have hnext : wrapInt (i + batchSize) = i + 1000 - 2 ^ 64 := by
              rw [hb]
              exact wrapInt_of_overflow _ (by omega) (by omega)
            rw [hnext]
            obtain ⟨fuel, rfl⟩ : ∃ f, fuel = f + 1 := ⟨fuel - 1, by omega⟩
            have hpanic :
                generateLoop numRows draw writeErr (fuel + 1) (i + 1000 - 2 ^ 64) (k + 1)
                  = some ([], .panic "runtime error: makeslice: len out of range") := by
              rw [generateLoop]
              have hlt2 : i + 1000 - 2 ^ 64 < numRows := by omega
              have hrem2 : wrapInt (numRows - (i + 1000 - 2 ^ 64)) = numRows - i - 1000 := by
                unfold wrapInt
                omega
              simp only [if_pos hlt2, hrem2, hb]
              have hsmall : ¬ (numRows - i - 1000 > 1000) := by omega
              have hneg : numRows - i - 1000 < 0 := by omega
              simp only [if_neg hsmall, if_pos hneg]
            rw [hpanic]
            exact ⟨_, rfl⟩
    · simp only [if_neg hlt]
      exact ⟨_, rfl⟩

/-- `generateSampleData` ends for every `--rows` value below `2^63`, whatever
`os.Create` and the `Write` calls return. -/
theorem generateSampleData_ends {ρ : Type} (numRows rowGroupSize : Int) (outputFile : String)
    (createErr : Option GoError) (draw : Int → ρ) (writeErr : Nat → Option GoError)
    (h1 : numRows < 2 ^ 63) :
    ∃ result, generateSampleData numRows rowGroupSize outputFile createErr draw writeErr
      = some result := by
  unfold generateSampleData
  cases createErr with
  | some err => exact ⟨_, rfl⟩
  | none =>
    obtain ⟨⟨shown, outcome⟩, hloop⟩ :=
      generateLoop_ends numRows draw writeErr h1 (numRows.toNat / 1000 + 2) 0 0
        (by omega) (by omega) (by omega)
    simp only [hloop]
    cases outcome <;> exact ⟨_, rfl⟩

end Pqx
